import Mathlib

/-!
Verification of the Oyemi lexicon build pipeline
(`tools/build_lexicon.py` and `tools/validate_lexicon.py`).

The Python code is shallowly embedded: Python strings are Lean `String`
(a wrapper around `List Char`), the three SQLite tables are Lean lists of
rows in insertion (rowid) order, `INSERT OR IGNORE` and point `UPDATE`
statements are explicit list transformations, and the fallible NLTK
collaborator calls are modelled with `Except` / `Option` (an `error` /
`none` value stands for the exception path of the corresponding
`try`/`except` block).  The `antonym_pairs` value is a Python `set`; its
iteration order is not fixed across runs (string hashing is randomized),
so the propagation pass is parameterized by an enumeration of that set.
-/

namespace Oyemi

/-! ## Python string primitives

Python `str.split('-')`, `'-'.join(...)`, `str.lower()`,
`str.replace(a, b)` (single-character arguments) and `str.isalpha()`
modelled on the underlying character lists.  `Char.isAlpha` /
`Char.toLower` are ASCII approximations of the Unicode originals; every
string the pipeline manufactures is ASCII. -/

def chSplitDash : List Char → List (List Char)
  | [] => [[]]
  | c :: cs =>
    if c = '-' then [] :: chSplitDash cs
    else
      match chSplitDash cs with
      | [] => [[c]]
      | p :: ps => (c :: p) :: ps

def chJoinDash : List (List Char) → List Char
  | [] => []
  | [p] => p
  | p :: q :: ps => p ++ '-' :: chJoinDash (q :: ps)

def pySplitDash (s : String) : List String :=
  (chSplitDash s.data).map String.mk

def pyJoinDash (parts : List String) : String :=
  String.mk (chJoinDash (parts.map String.data))

def pyLower (s : String) : String :=
  String.mk (s.data.map Char.toLower)

def pyReplaceChar (a b : Char) (s : String) : String :=
  String.mk (s.data.map (fun c => if c = a then b else c))

/-- `word.replace(' ', '').replace('-', '')`: delete spaces and hyphens. -/
def pyStripSpaceDash (s : String) : List Char :=
  s.data.filter (fun c => ¬ (c = ' ' ∨ c = '-'))

/-- Python `str.isalpha()`: non-empty and all alphabetic. -/
def pyIsAlpha (cs : List Char) : Bool :=
  ¬ cs.isEmpty && cs.all Char.isAlpha

/-- Python `int(...)` restricted to the digit strings the pipeline feeds it. -/
def pyIntD (s : String) : Nat :=
  s.data.foldl (fun a c => a * 10 + (c.toNat - 48)) 0

/-- Python `str.endswith(suffix)`. -/
def pyEndsWith (s suffix : String) : Bool :=
  suffix.data.isSuffixOf s.data

/-! ## Decimal rendering (Python `%d` / `%05d`) -/

def natDigitsAux : Nat → Nat → List Char
  | 0, _ => []
  | fuel + 1, n =>
    if n < 10 then [Nat.digitChar n]
    else natDigitsAux fuel (n / 10) ++ [Nat.digitChar (n % 10)]

/-- Decimal digits of `n` (fuel-based so that it reduces inside the
kernel; `n + 1` fuel always suffices). -/
def natDigits (n : Nat) : List Char := natDigitsAux (n + 1) n

def natStr (n : Nat) : String := String.mk (natDigits n)

/-- Python `f"{n:05d}"`: decimal digits left-padded with zeros to width
at least 5 (no truncation for wider numbers). -/
def format5 (n : Nat) : String :=
  String.mk (List.replicate (5 - (natDigits n).length) '0' ++ natDigits n)

/-! ## Static configuration tables (verbatim from `build_lexicon.py`) -/

/-- `POS_MAP.get(pos, 1)`: WordNet POS tag to code digit, default 1. -/
def POS_MAP (p : String) : Nat :=
  if p = "n" then 1
  else if p = "v" then 2
  else if p = "a" then 3
  else if p = "s" then 3
  else if p = "r" then 4
  else 1

def SUPERCLASS_ROOTS : List (String × String) := [
  ("entity.n.01", "0001"),
  ("physical_entity.n.01", "0002"),
  ("thing.n.12", "0003"),
  ("object.n.01", "0004"),
  ("whole.n.02", "0005"),
  ("part.n.01", "0006"),
  ("artifact.n.01", "0007"),
  ("natural_object.n.01", "0008"),
  ("living_thing.n.01", "0010"),
  ("organism.n.01", "0011"),
  ("person.n.01", "0012"),
  ("human.n.01", "0013"),
  ("animal.n.01", "0014"),
  ("mammal.n.01", "0015"),
  ("bird.n.01", "0016"),
  ("fish.n.01", "0017"),
  ("insect.n.01", "0018"),
  ("plant.n.02", "0019"),
  ("tree.n.01", "0020"),
  ("flower.n.01", "0021"),
  ("body.n.01", "0025"),
  ("body_part.n.01", "0026"),
  ("organ.n.01", "0027"),
  ("disease.n.01", "0028"),
  ("illness.n.01", "0029"),
  ("symptom.n.01", "0030"),
  ("substance.n.01", "0035"),
  ("matter.n.03", "0036"),
  ("material.n.01", "0037"),
  ("food.n.01", "0038"),
  ("liquid.n.01", "0039"),
  ("solid.n.01", "0040"),
  ("location.n.01", "0045"),
  ("region.n.01", "0046"),
  ("area.n.01", "0047"),
  ("place.n.02", "0048"),
  ("structure.n.01", "0050"),
  ("building.n.01", "0051"),
  ("room.n.01", "0052"),
  ("facility.n.01", "0053"),
  ("container.n.01", "0055"),
  ("vehicle.n.01", "0056"),
  ("clothing.n.01", "0057"),
  ("furnishing.n.01", "0058"),
  ("device.n.01", "0060"),
  ("tool.n.01", "0061"),
  ("machine.n.01", "0062"),
  ("instrument.n.01", "0063"),
  ("equipment.n.01", "0064"),
  ("computer.n.01", "0065"),
  ("weapon.n.01", "0066"),
  ("abstraction.n.06", "0100"),
  ("abstract_entity.n.01", "0101"),
  ("psychological_feature.n.01", "0105"),
  ("cognition.n.01", "0106"),
  ("knowledge.n.01", "0107"),
  ("belief.n.01", "0108"),
  ("idea.n.01", "0109"),
  ("concept.n.01", "0110"),
  ("thought.n.01", "0111"),
  ("plan.n.01", "0112"),
  ("intention.n.01", "0113"),
  ("feeling.n.01", "0120"),
  ("emotion.n.01", "0121"),
  ("fear.n.01", "0122"),
  ("anger.n.01", "0123"),
  ("sadness.n.01", "0124"),
  ("happiness.n.01", "0125"),
  ("joy.n.01", "0126"),
  ("love.n.01", "0127"),
  ("hate.n.01", "0128"),
  ("anxiety.n.02", "0129"),
  ("worry.n.01", "0130"),
  ("hope.n.01", "0131"),
  ("despair.n.01", "0132"),
  ("surprise.n.01", "0133"),
  ("disgust.n.01", "0134"),
  ("state.n.02", "0140"),
  ("condition.n.01", "0141"),
  ("situation.n.01", "0142"),
  ("status.n.01", "0143"),
  ("health.n.01", "0144"),
  ("stress.n.01", "0145"),
  ("communication.n.02", "0150"),
  ("message.n.02", "0151"),
  ("language.n.01", "0152"),
  ("word.n.01", "0153"),
  ("document.n.01", "0154"),
  ("speech.n.02", "0155"),
  ("time.n.05", "0160"),
  ("time_period.n.01", "0161"),
  ("event.n.01", "0162"),
  ("act.n.02", "0163"),
  ("activity.n.01", "0164"),
  ("process.n.06", "0165"),
  ("change.n.01", "0166"),
  ("group.n.01", "0170"),
  ("social_group.n.01", "0171"),
  ("organization.n.01", "0172"),
  ("institution.n.01", "0173"),
  ("company.n.01", "0174"),
  ("team.n.01", "0175"),
  ("family.n.01", "0176"),
  ("relation.n.01", "0180"),
  ("attribute.n.02", "0181"),
  ("quality.n.01", "0182"),
  ("quantity.n.01", "0183"),
  ("measure.n.02", "0184"),
  ("number.n.02", "0185"),
  ("occupation.n.01", "0200"),
  ("job.n.02", "0201"),
  ("profession.n.01", "0202"),
  ("employment.n.01", "0203"),
  ("work.n.01", "0204"),
  ("career.n.01", "0205"),
  ("worker.n.01", "0206"),
  ("employee.n.01", "0207"),
  ("employer.n.01", "0208"),
  ("management.n.01", "0210"),
  ("manager.n.01", "0211"),
  ("supervisor.n.01", "0212"),
  ("executive.n.01", "0213"),
  ("leader.n.01", "0214"),
  ("director.n.01", "0215"),
  ("boss.n.01", "0216"),
  ("wage.n.01", "0220"),
  ("salary.n.01", "0221"),
  ("income.n.01", "0222"),
  ("payment.n.01", "0223"),
  ("bonus.n.01", "0224"),
  ("benefit.n.01", "0225"),
  ("compensation.n.01", "0226"),
  ("dismissal.n.01", "0230"),
  ("discharge.n.01", "0231"),
  ("termination.n.01", "0232"),
  ("layoff.n.01", "0233"),
  ("firing.n.01", "0234"),
  ("resignation.n.01", "0235"),
  ("retirement.n.01", "0236"),
  ("downsizing.n.01", "0237"),
  ("money.n.01", "0250"),
  ("currency.n.01", "0251"),
  ("wealth.n.01", "0252"),
  ("asset.n.01", "0253"),
  ("debt.n.01", "0254"),
  ("cost.n.01", "0255"),
  ("price.n.01", "0256"),
  ("profit.n.01", "0257"),
  ("loss.n.01", "0258"),
  ("budget.n.01", "0259"),
  ("investment.n.01", "0260"),
  ("stock.n.01", "0261"),
  ("be.v.01", "2000"),
  ("have.v.01", "2001"),
  ("exist.v.01", "2002"),
  ("change.v.01", "2010"),
  ("become.v.01", "2011"),
  ("increase.v.01", "2012"),
  ("decrease.v.01", "2013"),
  ("grow.v.01", "2014"),
  ("reduce.v.01", "2015"),
  ("move.v.02", "2020"),
  ("travel.v.01", "2021"),
  ("go.v.01", "2022"),
  ("come.v.01", "2023"),
  ("run.v.01", "2024"),
  ("walk.v.01", "2025"),
  ("leave.v.01", "2026"),
  ("arrive.v.01", "2027"),
  ("transfer.v.05", "2030"),
  ("give.v.01", "2031"),
  ("take.v.01", "2032"),
  ("get.v.01", "2033"),
  ("receive.v.01", "2034"),
  ("send.v.01", "2035"),
  ("act.v.01", "2040"),
  ("do.v.01", "2041"),
  ("make.v.03", "2042"),
  ("create.v.02", "2043"),
  ("produce.v.01", "2044"),
  ("build.v.01", "2045"),
  ("destroy.v.02", "2046"),
  ("break.v.01", "2047"),
  ("fix.v.01", "2048"),
  ("communicate.v.02", "2050"),
  ("say.v.01", "2051"),
  ("tell.v.01", "2052"),
  ("speak.v.01", "2053"),
  ("write.v.01", "2054"),
  ("read.v.01", "2055"),
  ("ask.v.01", "2056"),
  ("answer.v.01", "2057"),
  ("think.v.03", "2060"),
  ("know.v.01", "2061"),
  ("believe.v.01", "2062"),
  ("understand.v.01", "2063"),
  ("learn.v.01", "2064"),
  ("remember.v.01", "2065"),
  ("forget.v.01", "2066"),
  ("decide.v.01", "2067"),
  ("plan.v.01", "2068"),
  ("perceive.v.02", "2070"),
  ("see.v.01", "2071"),
  ("hear.v.01", "2072"),
  ("feel.v.01", "2073"),
  ("notice.v.01", "2074"),
  ("feel.v.03", "2080"),
  ("like.v.02", "2081"),
  ("love.v.01", "2082"),
  ("hate.v.01", "2083"),
  ("fear.v.01", "2084"),
  ("worry.v.01", "2085"),
  ("hope.v.01", "2086"),
  ("want.v.02", "2087"),
  ("need.v.01", "2088"),
  ("interact.v.01", "2090"),
  ("meet.v.01", "2091"),
  ("help.v.01", "2092"),
  ("support.v.01", "2093"),
  ("work.v.02", "2094"),
  ("manage.v.01", "2095"),
  ("lead.v.01", "2096"),
  ("employ.v.01", "2100"),
  ("hire.v.01", "2101"),
  ("fire.v.02", "2102"),
  ("dismiss.v.02", "2103"),
  ("terminate.v.04", "2104"),
  ("resign.v.01", "2105"),
  ("retire.v.01", "2106"),
  ("quit.v.01", "2107"),
  ("layoff.v.01", "2108"),
  ("good.a.01", "3000"),
  ("bad.a.01", "3001"),
  ("great.a.01", "3002"),
  ("small.a.01", "3003"),
  ("big.a.01", "3004"),
  ("new.a.01", "3005"),
  ("old.a.01", "3006"),
  ("happy.a.01", "3010"),
  ("sad.a.01", "3011"),
  ("angry.a.01", "3012"),
  ("afraid.a.01", "3013"),
  ("worried.a.01", "3014"),
  ("anxious.a.01", "3015"),
  ("nervous.a.01", "3016"),
  ("stressed.a.01", "3017"),
  ("depressed.a.01", "3018"),
  ("hopeful.a.01", "3019"),
  ("frustrated.a.01", "3020"),
  ("disappointed.a.01", "3021"),
  ("satisfied.a.01", "3022"),
  ("content.a.01", "3023"),
  ("employed.a.01", "3030"),
  ("unemployed.a.01", "3031"),
  ("busy.a.01", "3032"),
  ("productive.a.01", "3033"),
  ("efficient.a.01", "3034"),
  ("incompetent.a.01", "3035"),
  ("professional.a.01", "3036"),
  ("qualified.a.01", "3037"),
  ("experienced.a.01", "3038"),
  ("very.r.01", "4000"),
  ("really.r.01", "4001"),
  ("quickly.r.01", "4002"),
  ("slowly.r.01", "4003"),
  ("well.r.01", "4004"),
  ("badly.r.01", "4005"),
  ("never.r.01", "4006"),
  ("always.r.01", "4007"),
  ("often.r.01", "4008"),
  ("sometimes.r.01", "4009")]

def VALENCE_OVERRIDES : List (String × Nat) := [
  ("excited", 1),
  ("exciting", 1),
  ("excitement", 1),
  ("delighted", 1),
  ("delightful", 1),
  ("delight", 1),
  ("thankful", 1),
  ("grateful", 1),
  ("gratitude", 1),
  ("magnificent", 1),
  ("wonderful", 1),
  ("marvelous", 1),
  ("amazing", 1),
  ("awesome", 1),
  ("fantastic", 1),
  ("excellent", 1),
  ("outstanding", 1),
  ("exceptional", 1),
  ("thrilled", 1),
  ("enthusiastic", 1),
  ("enthusiasm", 1),
  ("eager", 1),
  ("optimistic", 1),
  ("optimism", 1),
  ("joyful", 1),
  ("joyous", 1),
  ("cheerful", 1),
  ("pleased", 1),
  ("pleasant", 1),
  ("pleasure", 1),
  ("hopeful", 1),
  ("hope", 1),
  ("hoping", 1),
  ("confident", 1),
  ("confidence", 1),
  ("proud", 1),
  ("pride", 1),
  ("content", 1),
  ("contented", 1),
  ("contentment", 1),
  ("relieved", 1),
  ("relief", 1),
  ("inspired", 1),
  ("inspiring", 1),
  ("inspiration", 1),
  ("succeed", 1),
  ("success", 1),
  ("successful", 1),
  ("achieve", 1),
  ("achievement", 1),
  ("achieving", 1),
  ("accomplish", 1),
  ("accomplishment", 1),
  ("accomplished", 1),
  ("flourish", 1),
  ("flourishing", 1),
  ("thrive", 1),
  ("thriving", 1),
  ("improve", 1),
  ("improvement", 1),
  ("improving", 1),
  ("enhance", 1),
  ("enhancement", 1),
  ("enhanced", 1),
  ("boost", 1),
  ("boosted", 1),
  ("boosting", 1),
  ("empower", 1),
  ("empowered", 1),
  ("empowering", 1),
  ("strengthen", 1),
  ("strengthened", 1),
  ("win", 1),
  ("winning", 1),
  ("winner", 1),
  ("reward", 1),
  ("rewarded", 1),
  ("rewarding", 1),
  ("great", 1),
  ("good", 1),
  ("best", 1),
  ("better", 1),
  ("beautiful", 1),
  ("brilliant", 1),
  ("superb", 1),
  ("kind", 1),
  ("kindness", 1),
  ("generous", 1),
  ("generosity", 1),
  ("honest", 1),
  ("honesty", 1),
  ("loyal", 1),
  ("loyalty", 1),
  ("brave", 1),
  ("bravery", 1),
  ("courage", 1),
  ("courageous", 1),
  ("wise", 1),
  ("wisdom", 1),
  ("talented", 1),
  ("talent", 1),
  ("creative", 1),
  ("creativity", 1),
  ("innovative", 1),
  ("innovation", 1),
  ("efficient", 1),
  ("efficiency", 1),
  ("productive", 1),
  ("productivity", 1),
  ("reliable", 1),
  ("reliability", 1),
  ("promoted", 1),
  ("promotion", 1),
  ("recognized", 1),
  ("recognition", 1),
  ("appreciated", 1),
  ("appreciation", 1),
  ("valued", 1),
  ("valuable", 1),
  ("engaged", 1),
  ("engagement", 1),
  ("motivated", 1),
  ("motivation", 1),
  ("fulfilled", 1),
  ("fulfilling", 1),
  ("fulfillment", 1),
  ("satisfied", 1),
  ("satisfaction", 1),
  ("hired", 1),
  ("hiring", 1),
  ("angry", 2),
  ("anger", 2),
  ("angered", 2),
  ("fear", 2),
  ("fearful", 2),
  ("afraid", 2),
  ("scared", 2),
  ("anxious", 2),
  ("anxiety", 2),
  ("worried", 2),
  ("worry", 2),
  ("worrying", 2),
  ("stressed", 2),
  ("stress", 2),
  ("stressful", 2),
  ("depressed", 2),
  ("depression", 2),
  ("depressing", 2),
  ("miserable", 2),
  ("misery", 2),
  ("terrible", 2),
  ("horrible", 2),
  ("awful", 2),
  ("dreadful", 2),
  ("frustrated", 2),
  ("frustration", 2),
  ("frustrating", 2),
  ("disappointed", 2),
  ("disappointment", 2),
  ("disappointing", 2),
  ("disgusted", 2),
  ("disgust", 2),
  ("disgusting", 2),
  ("unhappy", 2),
  ("unhappiness", 2),
  ("upset", 2),
  ("upsetting", 2),
  ("annoyed", 2),
  ("annoying", 2),
  ("annoyance", 2),
  ("bitter", 2),
  ("bitterness", 2),
  ("resentful", 2),
  ("resentment", 2),
  ("hopeless", 2),
  ("hopelessness", 2),
  ("desperate", 2),
  ("desperation", 2),
  ("despair", 2),
  ("fail", 2),
  ("failure", 2),
  ("failed", 2),
  ("failing", 2),
  ("destroy", 2),
  ("destruction", 2),
  ("destroyed", 2),
  ("destroying", 2),
  ("damage", 2),
  ("damaged", 2),
  ("damaging", 2),
  ("harm", 2),
  ("harmed", 2),
  ("harmful", 2),
  ("harming", 2),
  ("hurt", 2),
  ("hurting", 2),
  ("hurtful", 2),
  ("ruin", 2),
  ("ruined", 2),
  ("ruining", 2),
  ("decline", 2),
  ("declining", 2),
  ("declined", 2),
  ("deteriorate", 2),
  ("deteriorating", 2),
  ("deterioration", 2),
  ("collapse", 2),
  ("collapsed", 2),
  ("collapsing", 2),
  ("crash", 2),
  ("crashed", 2),
  ("crashing", 2),
  ("struggle", 2),
  ("struggling", 2),
  ("struggled", 2),
  ("suffer", 2),
  ("suffering", 2),
  ("suffered", 2),
  ("lose", 2),
  ("losing", 2),
  ("lost", 2),
  ("loss", 2),
  ("bad", 2),
  ("worse", 2),
  ("worst", 2),
  ("cruel", 2),
  ("cruelty", 2),
  ("dishonest", 2),
  ("dishonesty", 2),
  ("lazy", 2),
  ("laziness", 2),
  ("incompetent", 2),
  ("incompetence", 2),
  ("unreliable", 2),
  ("toxic", 2),
  ("toxicity", 2),
  ("hostile", 2),
  ("hostility", 2),
  ("aggressive", 2),
  ("aggression", 2),
  ("abusive", 2),
  ("abuse", 2),
  ("corrupt", 2),
  ("corruption", 2),
  ("deceitful", 2),
  ("deceit", 2),
  ("pathetic", 2),
  ("worthless", 2),
  ("useless", 2),
  ("fired", 2),
  ("firing", 2),
  ("laid-off", 2),
  ("layoff", 2),
  ("layoffs", 2),
  ("demoted", 2),
  ("demotion", 2),
  ("underpaid", 2),
  ("overworked", 2),
  ("burnout", 2),
  ("micromanaged", 2),
  ("micromanagement", 2),
  ("exploited", 2),
  ("exploitation", 2),
  ("ignored", 2),
  ("undervalued", 2),
  ("dismissed", 2),
  ("dismissal", 2),
  ("terminated", 2),
  ("termination", 2),
  ("resignation", 2),
  ("quit", 2),
  ("quitting", 2),
  ("downsized", 2),
  ("downsizing", 2),
  ("restructured", 2),
  ("restructuring", 2),
  ("discrimination", 2),
  ("harassment", 2),
  ("harassed", 2),
  ("retaliation", 2),
  ("favoritism", 2),
  ("nepotism", 2),
  ("bullying", 2),
  ("bullied", 2),
  ("intimidation", 2),
  ("intimidated", 2),
  ("unfair", 2),
  ("unfairness", 2),
  ("unjust", 2),
  ("injustice", 2)]

def ABSTRACT_HYPERNYMS : List String := [
  "abstraction.n.06",
  "psychological_feature.n.01",
  "cognition.n.01",
  "attribute.n.02",
  "relation.n.01",
  "communication.n.02",
  "measure.n.02",
  "state.n.02",
  "event.n.01",
  "group.n.01",
  "feeling.n.01",
  "emotion.n.01"]

def CONCRETE_HYPERNYMS : List String := [
  "physical_entity.n.01",
  "object.n.01",
  "artifact.n.01",
  "organism.n.01",
  "substance.n.01",
  "body_part.n.01",
  "natural_object.n.01",
  "food.n.01",
  "location.n.01",
  "structure.n.01",
  "person.n.01",
  "animal.n.01"]


/-- First-match association-list lookup (Python `dict` access; the key sets
of the embedded tables behave like Python dict keys, see `ov_self`). -/
def tblLookup (tbl : List (String × String)) (k : String) : Option String :=
  match tbl with
  | [] => none
  | (a, b) :: rest => if a = k then some b else tblLookup rest k

def ovLookup (tbl : List (String × Nat)) (k : String) : Option Nat :=
  match tbl with
  | [] => none
  | (a, b) :: rest => if a = k then some b else ovLookup rest k

/-! ## Data model

One WordNet synset as consumed by the build: a POS tag, the result of the
`synset.hypernym_paths()` call (`error` models the exception path of the
surrounding `try`; each path is a list of synset names ordered as NLTK
yields them), the result of the `swn.senti_synset(...)` score lookup
(`none` models the exception path) and the lemma list. -/

instance {ε α : Type} [DecidableEq ε] [DecidableEq α] :
    DecidableEq (Except ε α) := fun a b =>
  match a, b with
  | .error x, .error y =>
    if h : x = y then .isTrue (by rw [h])
    else .isFalse (by intro hc; cases hc; exact h rfl)
  | .ok x, .ok y =>
    if h : x = y then .isTrue (by rw [h])
    else .isFalse (by intro hc; cases hc; exact h rfl)
  | .error _, .ok _ => .isFalse (by intro hc; cases hc)
  | .ok _, .error _ => .isFalse (by intro hc; cases hc)

structure WnLemma where
  name : String
  count : Nat
  antonyms : List String
deriving DecidableEq

structure Synset where
  pos : String
  paths : Except String (List (List String))
  senti : Option (Rat × Rat)
  lemmas : List WnLemma
deriving DecidableEq

/-- One row of the `lexicon` SQLite table. -/
structure Row where
  word : String
  code : String
  priority : Int
deriving DecidableEq

/-! ## Valence, abstractness and superclass resolvers -/

/-- `get_valence_sentiwordnet`: the lexical valence stage.
0 = neutral, 1 = positive, 2 = negative.  The source thresholds `0.25`
and `0.1` are written `mkRat 25 100` and `mkRat 1 10` (the same rational
values; see `mkRat_quarter` / `mkRat_tenth`). -/
def get_valence_sentiwordnet (senti : Option (Rat × Rat)) : Nat :=
  match senti with
  | none => 0
  | some (pos_score, neg_score) =>
    if pos_score > neg_score then
      if pos_score ≥ mkRat 25 100 then 1
      else if pos_score ≥ mkRat 1 10 then 1
      else 0
    else if neg_score > pos_score then
      if neg_score ≥ mkRat 25 100 then 2
      else if neg_score ≥ mkRat 1 10 then 2
      else 0
    else 0

/-- `get_valence_with_override`. -/
def get_valence_with_override (senti : Option (Rat × Rat)) (word : String) : Nat :=
  match ovLookup VALENCE_OVERRIDES (pyLower word) with
  | some v => v
  | none => get_valence_sentiwordnet senti

/-- `get_abstractness`: 0 = concrete, 1 = mixed, 2 = abstract. -/
def get_abstractness (s : Synset) : Nat :=
  match s.paths with
  | .error _ => 1
  | .ok paths =>
    let names := paths.flatten
    let isAbstract := names.any (fun n => ABSTRACT_HYPERNYMS.contains n)
    let isConcrete := names.any (fun n => CONCRETE_HYPERNYMS.contains n)
    if isAbstract && !isConcrete then 2
    else if isConcrete && !isAbstract then 0
    else 1

/-- `_get_fallback_superclass`: POS-keyed fallback code. -/
def getFallbackSuperclass (pos : String) : String :=
  if pos = "n" then "0999"
  else if pos = "v" then "2999"
  else if pos = "a" ∨ pos = "s" then "3999"
  else "4999"

/-- Inner loop of `get_superclass_code`: `for ancestor in reversed(path)`. -/
def findInPath : List String → Option String
  | [] => none
  | n :: ns =>
    match tblLookup SUPERCLASS_ROOTS n with
    | some c => some c
    | none => findInPath ns

/-- Outer loop of `get_superclass_code`: `for path in paths`. -/
def findInPaths : List (List String) → Option String
  | [] => none
  | p :: ps =>
    match findInPath p.reverse with
    | some c => some c
    | none => findInPaths ps

/-- `get_superclass_code`. -/
def get_superclass_code (s : Synset) : String :=
  match s.paths with
  | .error _ => getFallbackSuperclass s.pos
  | .ok [] => getFallbackSuperclass s.pos
  | .ok paths =>
    match findInPaths paths with
    | some c => c
    | none => getFallbackSuperclass s.pos

/-! ## Phase 1: synset traversal (entry generation) -/

/-- `f"{superclass}-{local_id}-{pos}-{abstractness}-{word_valence}"`. -/
def mkCode (sc lid : String) (pos ab wv : Nat) : String :=
  pyJoinDash [sc, lid, natStr pos, natStr ab, natStr wv]

/-- `lemma.name().lower().replace('_', ' ')`. -/
def normWord (s : String) : String :=
  pyReplaceChar '_' ' ' (pyLower s)

/-- The skip test: `clean_word.isalpha()` after stripping spaces/hyphens. -/
def cleanWordOk (word : String) : Bool :=
  pyIsAlpha (pyStripSpaceDash word)

/-- `priority = lemma_freq + superclass_bonus + lemma_order_bonus`. -/
def buildPriority (sc : String) (count : Nat) (idx : Nat) : Int :=
  (count : Int) + (if pyEndsWith sc "999" then 0 else 10000)
    + max 0 (10 - (idx : Int))

/-- Set-membership insert for the `antonym_pairs` Python set, recorded in
insertion order (one canonical enumeration of the set). -/
def addPair (ps : List (String × String)) (p : String × String) :
    List (String × String) :=
  if p ∈ ps then ps else ps ++ [p]

/-- `for ant in lemma.antonyms(): ...` -/
def addAntonyms (word : String) (ants : List String)
    (ps : List (String × String)) : List (String × String) :=
  ants.foldl (fun ps a =>
    let ant_word := normWord a
    if pyIsAlpha (pyStripSpaceDash ant_word) then
      addPair (addPair ps (word, ant_word)) (ant_word, word)
    else ps) ps

/-- `for lemma_idx, lemma in enumerate(synset.lemmas()): ...` -/
def procLemmas (senti : Option (Rat × Rat)) (sc lid : String) (pos ab : Nat) :
    Nat → List WnLemma → List Row × List (String × String) →
    List Row × List (String × String)
  | _, [], acc => acc
  | idx, l :: ls, (es, ps) =>
    let word := normWord l.name
    if cleanWordOk word then
      let wv := get_valence_with_override senti word
      let code := mkCode sc lid pos ab wv
      let es := es ++ [⟨word, code, buildPriority sc l.count idx⟩]
      let ps := addAntonyms word l.antonyms ps
      procLemmas senti sc lid pos ab (idx + 1) ls (es, ps)
    else
      procLemmas senti sc lid pos ab (idx + 1) ls (es, ps)

structure BState where
  ctr : String → Nat
  entries : List Row
  pairs : List (String × String)

/-- Per-synset body of the main loop. -/
def procSynset (st : BState) (s : Synset) : BState :=
  let sc := get_superclass_code s
  let ctr := fun k => if k = sc then st.ctr k + 1 else st.ctr k
  let res := procLemmas s.senti sc (format5 (ctr sc)) (POS_MAP s.pos)
    (get_abstractness s) 0 s.lemmas (st.entries, st.pairs)
  ⟨ctr, res.1, res.2⟩

def genState (syns : List Synset) : BState :=
  syns.foldl procSynset ⟨fun _ => 0, [], []⟩

def genEntries (syns : List Synset) : List Row := (genState syns).entries

/-- The `antonym_pairs` set in insertion order. -/
def collectedPairs (syns : List Synset) : List (String × String) :=
  (genState syns).pairs

/-! ## Phase 2: bulk `INSERT OR IGNORE` into `lexicon` -/

def bulkInsert (es : List Row) : List Row :=
  es.foldl (fun t e =>
    if t.any (fun r => r.word = e.word ∧ r.code = e.code) then t
    else t ++ [e]) []

/-! ## Phase 3: antonym-propagation point updates -/

/-- `SELECT word, code FROM lexicon` grouped per word, in rowid order:
the `word_codes` dict of the pass. -/
def wordCodes (t : List Row) (w : String) : List String :=
  (t.filter (fun r => r.word = w)).map (fun r => r.code)

/-- `code.split('-')[4]`; reachable codes always have five fields
(`getD` stands in for the raising Python index). -/
def part4 (c : String) : String :=
  (pySplitDash c).getD 4 ""

/-- `opposite = 2 if v == 1 else 1`. -/
def opposite (v : Nat) : Nat := if v = 1 then 2 else 1

/-- `'-'.join(parts[:4] + [str(d)])`. -/
def rewriteValence (parts : List String) (d : Nat) : String :=
  pyJoinDash (parts.take 4 ++ [natStr d])

/-- Fixes one direction of a pair contributes: the neutral-valence codes
of `w`, each rewritten to digit `d`, as `(new_code, word, old_code)`. -/
def fixesFor (t : List Row) (w : String) (d : Nat) :
    List (String × String × String) :=
  (wordCodes t w).filterMap (fun old =>
    let parts := pySplitDash old
    if parts.getD 4 "" = "0" then some (rewriteValence parts d, w, old)
    else none)

/-- `for word1, word2 in antonym_pairs: ...` building `valence_fixes`
against the phase-2 table snapshot `t`. -/
def collectFixes (t : List Row) : List (String × String) →
    List (String × String × String)
  | [] => []
  | (w1, w2) :: rest =>
    let this :=
      match wordCodes t w1, wordCodes t w2 with
      | c1 :: _, c2 :: _ =>
        if (ovLookup VALENCE_OVERRIDES (pyLower w1)).isSome
            ∨ (ovLookup VALENCE_OVERRIDES (pyLower w2)).isSome then []
        else
          let v1 := pyIntD (part4 c1)
          let v2 := pyIntD (part4 c2)
          if v1 = 0 ∧ v2 ≠ 0 then fixesFor t w1 (opposite v2)
          else if v2 = 0 ∧ v1 ≠ 0 then fixesFor t w2 (opposite v1)
          else []
      | _, _ => []
    this ++ collectFixes t rest

/-- One `UPDATE lexicon SET code = new WHERE word = w AND code = old`,
acting row-wise. -/
def updRow (w old new : String) (r : Row) : Row :=
  if r.word = w ∧ r.code = old then { r with code := new } else r

def applyFixes (t : List Row) (fixes : List (String × String × String)) :
    List Row :=
  fixes.foldl (fun t fx => t.map (updRow fx.2.1 fx.2.2 fx.1)) t

/-- Row-level view of `applyFixes` (each `UPDATE` acts row-wise, so the
fold of table maps is the map of a row fold). -/
def perRowFix (fixes : List (String × String × String)) (r : Row) : Row :=
  fixes.foldl (fun r fx => updRow fx.2.1 fx.2.2 fx.1 r) r

/-- The whole `[5/5]` pass, for a given enumeration `ps` of the
`antonym_pairs` set. -/
def antonymPass (t : List Row) (ps : List (String × String)) : List Row :=
  applyFixes t (collectFixes t ps)

/-! ## Phase 4: terminal override pass (`[6/6]`) -/

/-- Row-wise form of the conditional `UPDATE` issued for one stored code
`old` of the override word `w` (`if int(parts[4]) != correct_valence`). -/
def ovRow (w : String) (v : Nat) (old : String) (r : Row) : Row :=
  if pyIntD (part4 old) ≠ v ∧ r.word = w ∧ r.code = old then
    { r with code := rewriteValence (pySplitDash old) v }
  else r

/-- Processing of one override word: fetch its codes once, then issue the
point updates in order. -/
def applyOverrideWord (t : List Row) (w : String) (v : Nat) : List Row :=
  (wordCodes t w).foldl (fun t old => t.map (ovRow w v old)) t

/-- Row-level view of `applyOverrideWord`. -/
def perRowOv (w : String) (v : Nat) (codes : List String) (r : Row) : Row :=
  codes.foldl (fun r old => ovRow w v old r) r

def overridePass (t : List Row) : List Row :=
  VALENCE_OVERRIDES.foldl (fun t wv => applyOverrideWord t wv.1 wv.2) t

/-! ## The full build -/

/-- `build_lexicon()` restricted to the `lexicon` table: bulk insert,
antonym-propagation pass over the pair enumeration `ps`, then the
terminal override pass. -/
def buildTable (syns : List Synset) (ps : List (String × String)) :
    List Row :=
  overridePass (antonymPass (bulkInsert (genEntries syns)) ps)

/-! ## Validator (`validate_lexicon.py`) -/

/-- Field-wise reading of the pattern
`^\d{4}-\d{5}-[1-4]-[0-2]-[0-2]$` (digits taken as ASCII): exactly five
dash-separated fields of the given shapes. -/
def fmtOkParts : List String → Bool
  | [a, b, p, d, v] =>
    a.length == 4 && a.data.all Char.isDigit &&
    b.length == 5 && b.data.all Char.isDigit &&
    (p == "1" || p == "2" || p == "3" || p == "4") &&
    (d == "0" || d == "1" || d == "2") &&
    (v == "0" || v == "1" || v == "2")
  | _ => false

/-- `validate_code_format`. -/
def validate_code_format (code : String) : Bool × String :=
  if fmtOkParts (pySplitDash code) then (true, "")
  else (false, "Invalid format: " ++ code)

/-- Insertion sort on strings: the `ORDER BY word` of the determinism
query. -/
def insSorted (w : String) : List String → List String
  | [] => [w]
  | x :: xs => if w ≤ x then w :: x :: xs else x :: insSorted w xs

def sortStr : List String → List String
  | [] => []
  | x :: xs => insSorted x (sortStr xs)

/-- The determinism query:
`SELECT word, GROUP_CONCAT(code, '|') FROM lexicon GROUP BY word ORDER BY
word` — one row per distinct word. -/
def detGroups (t : List Row) : List (String × String) :=
  (sortStr ((t.map (fun r => r.word)).dedup)).map
    (fun w => (w, String.intercalate "|" (wordCodes t w)))

/-- The issue message (the quote characters around the word are elided;
no check inspects the text). -/
def mkIssueMsg (w : String) : String :=
  "Non-deterministic: " ++ w ++ " has different codes"

/-- The scanning loop of `check_determinism` over the query rows, with
the `word_codes` first-occurrence dict and the issue accumulator. -/
def detScan : List (String × String) → List (String × String) →
    List String → List String
  | [], _, issues => issues
  | (w, cs) :: rest, dict, issues =>
    match tblLookup dict w with
    | some prev =>
      if prev ≠ cs then detScan rest dict (issues ++ [mkIssueMsg w])
      else detScan rest dict issues
    | none => detScan rest (dict ++ [(w, cs)]) issues

/-- `check_determinism`. -/
def check_determinism (t : List Row) : Bool × List String :=
  let issues := detScan (detGroups t) [] []
  if issues = [] then (true, []) else (false, issues)

/-! ## Spec-side reference definitions (for refinement claims) -/

/-- The spec's §4.1 algorithm read with the spec's §3/§6 path ordering
(each hypernym path ordered concept-first, root-last): iterate the paths
in order, the first path containing any SuperclassTable ancestor wins,
and within it the scan runs from the most specific ancestor (the front of
the path) to the most general; fall back to the POS-keyed code. -/
def specResolveConceptFirst (s : Synset) : String :=
  match s.paths with
  | .error _ => getFallbackSuperclass s.pos
  | .ok paths =>
    match paths.find? (fun p =>
        p.any (fun n => (tblLookup SUPERCLASS_ROOTS n).isSome)) with
    | some p =>
      match p.find? (fun n => (tblLookup SUPERCLASS_ROOTS n).isSome) with
      | some n => (tblLookup SUPERCLASS_ROOTS n).getD (getFallbackSuperclass s.pos)
      | none => getFallbackSuperclass s.pos
    | none => getFallbackSuperclass s.pos

/-- The same algorithm with the path ordering the code actually assumes
(root-first, concept-last, as NLTK supplies them): the first path with a
SuperclassTable ancestor wins and is scanned from its last element (the
most specific ancestor) to its first (the most general). -/
def specResolveRootFirst (s : Synset) : String :=
  match s.paths with
  | .error _ => getFallbackSuperclass s.pos
  | .ok paths =>
    match paths.find? (fun p =>
        p.any (fun n => (tblLookup SUPERCLASS_ROOTS n).isSome)) with
    | some p =>
      match p.reverse.find? (fun n => (tblLookup SUPERCLASS_ROOTS n).isSome) with
      | some n => (tblLookup SUPERCLASS_ROOTS n).getD (getFallbackSuperclass s.pos)
      | none => getFallbackSuperclass s.pos
    | none => getFallbackSuperclass s.pos

/-- Spec §4.4: `priority = frequency + (10000 if superclass is specific
else 0) + max(0, 10 - ordinal_position)`. -/
def spec_priority (freq : Nat) (specific : Bool) (idx : Nat) : Int :=
  (freq : Int) + (if specific then 10000 else 0) + max 0 (10 - (idx : Int))

/-- The four POS-keyed fallback superclass codes. -/
def fallbackCodes : List String := ["0999", "2999", "3999", "4999"]

/-! ## Concrete scenario data used by counterexamples and witnesses -/

/-- A neutral noun with antonym links to `bbb` and `ccc`. -/
def synNeutralA : Synset := ⟨"n", .ok [], none, [⟨"aaa", 0, ["bbb", "ccc"]⟩]⟩

/-- A positive synset (pos 0.5 / neg 0). -/
def synPosB : Synset := ⟨"n", .ok [], some (mkRat 1 2, 0), [⟨"bbb", 0, []⟩]⟩

/-- A negative synset (pos 0 / neg 0.5). -/
def synNegC : Synset := ⟨"n", .ok [], some (0, mkRat 1 2), [⟨"ccc", 0, []⟩]⟩

def snapABC : List Synset := [synNeutralA, synPosB, synNegC]

/-- One enumeration of `collectedPairs snapABC` (its insertion order). -/
def pairsOrderOne : List (String × String) :=
  [("aaa", "bbb"), ("bbb", "aaa"), ("aaa", "ccc"), ("ccc", "aaa")]

/-- A second enumeration of the same set. -/
def pairsOrderTwo : List (String × String) :=
  [("aaa", "ccc"), ("ccc", "aaa"), ("aaa", "bbb"), ("bbb", "aaa")]

/-- The phase-2 table of `snapABC`, written out. -/
def tableABC : List Row :=
  [⟨"aaa", "0999-00001-1-1-0", 10⟩,
   ⟨"bbb", "0999-00002-1-1-1", 10⟩,
   ⟨"ccc", "0999-00003-1-1-2", 10⟩]

/-- A noun synset with one hypernym path holding two table hits.  Read
with the spec's concept-first convention the path says: most specific
ancestor `object.n.01` (code 0004), root `entity.n.01` (code 0001). -/
def synC4 : Synset := ⟨"n", .ok [["object.n.01", "entity.n.01"]], none, []⟩

/-- An adjective synset hitting `good.a.01` whose lemma `excited` is
override-protected (override valence 1) while its lexical scores are
negative. -/
def synExcited : Synset := ⟨"a", .ok [["good.a.01"]], some (0, mkRat 1 2), [⟨"excited", 3, []⟩]⟩

/-- Weak well-formedness of a stored code: five dash-separated fields
with a valence-digit last field. -/
def P5 (c : String) : Prop :=
  (pySplitDash c).length = 5 ∧ part4 c ∈ (["0", "1", "2"] : List String)

def TableP5 (t : List Row) : Prop := ∀ r ∈ t, P5 r.code

/-- Full format well-formedness (the validator pattern). -/
def TableFmt (t : List Row) : Prop :=
  ∀ r ∈ t, fmtOkParts (pySplitDash r.code) = true

/-! # Helper lemmas -/

theorem chSplitDash_ne_nil (cs : List Char) : chSplitDash cs ≠ [] := by
  induction cs with
  | nil => simp [chSplitDash]
  | cons c cs ih =>
    by_cases hc : c = '-'
    · simp [chSplitDash, hc]
    · cases h : chSplitDash cs with
      | nil => simp [chSplitDash, hc, h]
      | cons p ps => simp [chSplitDash, hc, h]

theorem chSplitDash_no_dash (cs : List Char) :
    ∀ p ∈ chSplitDash cs, '-' ∉ p := by
  induction cs with
  | nil => simp [chSplitDash]
  | cons c cs ih =>
    by_cases hc : c = '-'
    · subst hc
      simp only [chSplitDash, if_pos rfl]
      intro p hp
      rcases List.mem_cons.mp hp with rfl | hp
      · simp
      · exact ih p hp
    · cases h : chSplitDash cs with
      | nil => exact absurd h (chSplitDash_ne_nil cs)
      | cons q qs =>
        simp only [chSplitDash, if_neg hc, h]
        intro p hp
        rcases List.mem_cons.mp hp with rfl | hp
        · intro hmem
          rcases List.mem_cons.mp hmem with hd | hmem
          · exact hc hd.symm
          · exact ih q (by simp [h]) hmem
        · exact ih p (by simp [h, hp])

theorem chSplitDash_of_no_dash (p : List Char) (h : '-' ∉ p) :
    chSplitDash p = [p] := by
  induction p with
  | nil => simp [chSplitDash]
  | cons c cs ih =>
    have hc : ¬ c = '-' := fun hcc => h (by simp [hcc])
    have hcs : '-' ∉ cs := fun hm => h (by simp [hm])
    simp [chSplitDash, hc, ih hcs]

theorem chSplitDash_append_dash (p t : List Char) (h : '-' ∉ p) :
    chSplitDash (p ++ '-' :: t) = p :: chSplitDash t := by
  induction p with
  | nil => simp [chSplitDash]
  | cons c cs ih =>
    have hc : ¬ c = '-' := fun hcc => h (by simp [hcc])
    have hcs : '-' ∉ cs := fun hm => h (by simp [hm])
    rw [List.cons_append]
    simp only [chSplitDash, if_neg hc, ih hcs]

theorem chSplitDash_chJoinDash (parts : List (List Char))
    (hne : parts ≠ []) (hnd : ∀ p ∈ parts, '-' ∉ p) :
    chSplitDash (chJoinDash parts) = parts := by
  induction parts with
  | nil => exact absurd rfl hne
  | cons p ps ih =>
    cases ps with
    | nil => simpa [chJoinDash] using chSplitDash_of_no_dash p (hnd p (by simp))
    | cons q qs =>
      have hp : '-' ∉ p := hnd p (by simp)
      simp only [chJoinDash, chSplitDash_append_dash p _ hp]
      rw [ih (by simp) (fun r hr => hnd r (by simp [hr]))]

theorem string_mk_data (s : String) : String.mk s.data = s := rfl

theorem map_mk_data (l : List String) : l.map (fun s => String.mk s.data) = l := by
  induction l with
  | nil => rfl
  | cons x xs ih => simp [ih]

theorem pySplitDash_pyJoinDash (parts : List String)
    (hne : parts ≠ []) (hnd : ∀ p ∈ parts, '-' ∉ p.data) :
    pySplitDash (pyJoinDash parts) = parts := by
  unfold pySplitDash pyJoinDash
  rw [show (String.mk (chJoinDash (parts.map String.data))).data
        = chJoinDash (parts.map String.data) from rfl]
  rw [chSplitDash_chJoinDash (parts.map String.data)
        (by simpa using hne)
        (by intro p hp
            rcases List.mem_map.mp hp with ⟨q, hq, rfl⟩
            exact hnd q hq)]
  rw [List.map_map]
  exact map_mk_data parts

theorem natDigitsAux_fuel (f1 : Nat) :
    ∀ f2 n, n < f1 → n < f2 → natDigitsAux f1 n = natDigitsAux f2 n := by
  induction f1 with
  | zero => intro f2 n h1; omega
  | succ f1 ih =>
    intro f2 n h1 h2
    cases f2 with
    | zero => omega
    | succ f2 =>
      by_cases h : n < 10
      · simp [natDigitsAux, h]
      · have hlt : n / 10 < n := Nat.div_lt_self (by omega) (by omega)
        simp only [natDigitsAux, if_neg h]
        rw [ih f2 (n / 10) (by omega) (by omega)]

theorem natDigits_eq (n : Nat) :
    natDigits n = if n < 10 then [Nat.digitChar n]
      else natDigits (n / 10) ++ [Nat.digitChar (n % 10)] := by
  have hun : natDigitsAux (n + 1) n
      = if n < 10 then [Nat.digitChar n]
        else natDigitsAux n (n / 10) ++ [Nat.digitChar (n % 10)] := rfl
  rw [show natDigits n = natDigitsAux (n + 1) n from rfl, hun]
  by_cases h : n < 10
  · rw [if_pos h, if_pos h]
  · rw [if_neg h, if_neg h,
      natDigitsAux_fuel n (n / 10 + 1) (n / 10)
        (by have := Nat.div_lt_self (show 0 < n by omega) (show 1 < 10 by omega); omega)
        (by omega)]
    rfl

theorem digitChar_isDigit (n : Nat) (h : n < 10) :
    (Nat.digitChar n).isDigit = true := by
  interval_cases n <;> decide

theorem natDigits_isDigit (n : Nat) :
    ∀ c ∈ natDigits n, c.isDigit = true := by
  induction n using Nat.strong_induction_on with
  | _ n ih =>
    rw [natDigits_eq]
    by_cases h : n < 10
    · rw [if_pos h]
      intro c hc
      rcases List.mem_singleton.mp hc with rfl
      exact digitChar_isDigit n h
    · rw [if_neg h]
      intro c hc
      rcases List.mem_append.mp hc with hc | hc
      · exact ih (n / 10) (Nat.div_lt_self (by omega) (by omega)) c hc
      · rcases List.mem_singleton.mp hc with rfl
        exact digitChar_isDigit (n % 10) (Nat.mod_lt n (by omega))

theorem isDigit_ne_dash (c : Char) (h : c.isDigit = true) : c ≠ '-' := by
  intro hc; subst hc; simp [Char.isDigit] at h

theorem natDigits_no_dash (n : Nat) : '-' ∉ natDigits n := by
  intro h
  exact isDigit_ne_dash '-' (natDigits_isDigit n '-' h) rfl

theorem natStr_no_dash (n : Nat) : '-' ∉ (natStr n).data := natDigits_no_dash n

theorem natDigits_length_le (k : Nat) :
    ∀ n, n < 10 ^ k → 0 < k → (natDigits n).length ≤ k := by
  induction k with
  | zero => omega
  | succ k ih =>
    intro n hn _
    rw [natDigits_eq]
    by_cases h : n < 10
    · simp [h]
    · rw [if_neg h]
      have hk : 0 < k := by
        by_contra hk
        have hz : k = 0 := by omega
        subst hz
        simp at hn
        omega
      have hdiv : n / 10 < 10 ^ k := by
        rw [Nat.div_lt_iff_lt_mul (show 0 < 10 by omega)]
        calc n < 10 ^ (k + 1) := hn
        _ = 10 ^ k * 10 := by ring
      simp only [List.length_append, List.length_singleton]
      have hih := ih (n / 10) hdiv hk
      omega

theorem natDigits_ne_nil (n : Nat) : natDigits n ≠ [] := by
  rw [natDigits_eq]
  by_cases h : n < 10
  · simp [h]
  · simp [h]

/-! ## Code-structure lemmas -/

theorem pySplitDash_no_dash (c : String) :
    ∀ p ∈ pySplitDash c, '-' ∉ p.data := by
  unfold pySplitDash
  intro p hp
  rcases List.mem_map.mp hp with ⟨q, hq, rfl⟩
  exact chSplitDash_no_dash c.data q hq

theorem pySplitDash_ne_nil (c : String) : pySplitDash c ≠ [] := by
  unfold pySplitDash
  simpa using chSplitDash_ne_nil c.data

theorem mkCode_split (sc lid : String) (pos ab wv : Nat)
    (hsc : '-' ∉ sc.data) (hlid : '-' ∉ lid.data) :
    pySplitDash (mkCode sc lid pos ab wv)
      = [sc, lid, natStr pos, natStr ab, natStr wv] := by
  unfold mkCode
  apply pySplitDash_pyJoinDash
  · simp
  · intro p hp
    simp only [List.mem_cons, List.mem_singleton] at hp
    rcases hp with rfl | rfl | rfl | rfl | rfl | h
    · exact hsc
    · exact hlid
    · exact natStr_no_dash pos
    · exact natStr_no_dash ab
    · exact natStr_no_dash wv
    · cases h

theorem part4_eq (c : String) (a b p d v : String)
    (h : pySplitDash c = [a, b, p, d, v]) : part4 c = v := by
  unfold part4
  rw [h]
  rfl

theorem list_len5 {α : Type} (l : List α) (h : l.length = 5) :
    ∃ a b c d e, l = [a, b, c, d, e] := by
  match l with
  | [a, b, c, d, e] => exact ⟨a, b, c, d, e, rfl⟩
  | [] => simp at h
  | [_] => simp at h
  | [_, _] => simp at h
  | [_, _, _] => simp at h
  | [_, _, _, _] => simp at h
  | _ :: _ :: _ :: _ :: _ :: _ :: _ => simp [List.length_cons] at h

theorem rewriteValence_split (parts : List String) (d : Nat)
    (a b p dd v : String) (hp : parts = [a, b, p, dd, v])
    (hnd : ∀ q ∈ parts, '-' ∉ q.data) :
    pySplitDash (rewriteValence parts d) = [a, b, p, dd, natStr d] := by
  subst hp
  unfold rewriteValence
  rw [show ([a, b, p, dd, v] : List String).take 4 = [a, b, p, dd] from rfl]
  apply pySplitDash_pyJoinDash
  · simp
  · intro q hq
    have hq5 : q ∈ [a, b, p, dd, natStr d] := by simpa using hq
    simp only [List.mem_cons] at hq5
    rcases hq5 with rfl | rfl | rfl | rfl | rfl | hq0
    · exact hnd q (by simp)
    · exact hnd q (by simp)
    · exact hnd q (by simp)
    · exact hnd q (by simp)
    · exact natStr_no_dash d
    · cases hq0

theorem fmtOkParts_shape (l : List String) (h : fmtOkParts l = true) :
    ∃ a b p d v, l = [a, b, p, d, v]
      ∧ (a.length = 4 ∧ a.data.all Char.isDigit = true)
      ∧ (b.length = 5 ∧ b.data.all Char.isDigit = true)
      ∧ p ∈ (["1", "2", "3", "4"] : List String)
      ∧ d ∈ (["0", "1", "2"] : List String)
      ∧ v ∈ (["0", "1", "2"] : List String) := by
  match l with
  | [a, b, p, d, v] =>
    refine ⟨a, b, p, d, v, rfl, ?_⟩
    simp only [fmtOkParts, Bool.and_eq_true, beq_iff_eq, Bool.or_eq_true] at h
    obtain ⟨⟨⟨⟨⟨⟨ha1, ha2⟩, hb1⟩, hb2⟩, hp⟩, hd⟩, hv⟩ := h
    refine ⟨⟨ha1, ha2⟩, ⟨hb1, hb2⟩, ?_, ?_, ?_⟩ <;> simp only [List.mem_cons, List.mem_singleton] <;> tauto
  | [] => simp [fmtOkParts] at h
  | [_] => simp [fmtOkParts] at h
  | [_, _] => simp [fmtOkParts] at h
  | [_, _, _] => simp [fmtOkParts] at h
  | [_, _, _, _] => simp [fmtOkParts] at h
  | _ :: _ :: _ :: _ :: _ :: _ :: _ => simp [fmtOkParts] at h

theorem P5_of_fmt (c : String) (h : fmtOkParts (pySplitDash c) = true) :
    P5 c := by
  obtain ⟨a, b, p, d, v, hl, _, _, _, _, hv⟩ := fmtOkParts_shape _ h
  exact ⟨by rw [hl]; rfl, by rw [part4_eq c a b p d v hl]; exact hv⟩

theorem fmt_rewrite (c : String) (d : Nat)
    (hfmt : fmtOkParts (pySplitDash c) = true) (hd : d = 1 ∨ d = 2) :
    fmtOkParts (pySplitDash (rewriteValence (pySplitDash c) d)) = true := by
  obtain ⟨a, b, p, dd, v, hl, ha, hb, hp, hdd, hv⟩ := fmtOkParts_shape _ hfmt
  rw [rewriteValence_split (pySplitDash c) d a b p dd v hl
    (pySplitDash_no_dash c)]
  have hnd : natStr d = "1" ∨ natStr d = "2" := by
    rcases hd with rfl | rfl
    · left; decide
    · right; decide
  simp only [fmtOkParts, Bool.and_eq_true, beq_iff_eq, Bool.or_eq_true]
  simp only [List.mem_cons, List.mem_singleton] at hp hdd
  refine ⟨⟨⟨⟨⟨⟨ha.1, ha.2⟩, hb.1⟩, hb.2⟩, ?_⟩, ?_⟩, ?_⟩
  · rcases hp with rfl | rfl | rfl | rfl | h <;> simp_all
  · rcases hdd with rfl | rfl | rfl | h <;> simp_all
  · rcases hnd with h | h <;> simp [h]

theorem P5_rewrite (c : String) (d : Nat) (h : P5 c) (hd : d = 1 ∨ d = 2) :
    P5 (rewriteValence (pySplitDash c) d) := by
  obtain ⟨h5, _⟩ := h
  obtain ⟨a, b, p, dd, v, hl⟩ := list_len5 (pySplitDash c) h5
  have hsp := rewriteValence_split (pySplitDash c) d a b p dd v hl
    (pySplitDash_no_dash c)
  constructor
  · rw [hsp]
    rfl
  · rw [part4_eq _ a b p dd (natStr d) hsp]
    rcases hd with rfl | rfl
    · simp [show natStr 1 = "1" from by decide]
    · simp [show natStr 2 = "2" from by decide]

/-! ## Facts about the static tables and resolvers -/

set_option maxRecDepth 40000 in
theorem superclass_values_4digit :
    ∀ p ∈ SUPERCLASS_ROOTS, p.2.length = 4 ∧ p.2.data.all Char.isDigit = true := by
  decide

set_option maxRecDepth 40000 in
theorem superclass_values_not999 :
    ∀ p ∈ SUPERCLASS_ROOTS, pyEndsWith p.2 "999" = false := by
  decide

theorem fallback_4digit :
    ∀ c ∈ fallbackCodes, c.length = 4 ∧ c.data.all Char.isDigit = true := by
  decide

theorem fallback_ends999 :
    ∀ c ∈ fallbackCodes, pyEndsWith c "999" = true := by
  decide

set_option maxRecDepth 40000 in
theorem override_vals_12 : ∀ p ∈ VALENCE_OVERRIDES, p.2 = 1 ∨ p.2 = 2 := by
  decide

set_option maxRecDepth 40000 in
set_option maxHeartbeats 2000000 in
theorem ov_self :
    ∀ p ∈ VALENCE_OVERRIDES, ovLookup VALENCE_OVERRIDES p.1 = some p.2 := by
  decide

theorem all_digits_no_dash (l : List Char) (h : l.all Char.isDigit = true) :
    '-' ∉ l := by
  intro hm
  have := List.all_eq_true.mp h '-' hm
  simp [Char.isDigit] at this

theorem tblLookup_mem (tbl : List (String × String)) (k v : String)
    (h : tblLookup tbl k = some v) : ∃ a, (a, v) ∈ tbl := by
  induction tbl with
  | nil => simp [tblLookup] at h
  | cons p rest ih =>
    obtain ⟨a, b⟩ := p
    by_cases hk : a = k
    · simp [tblLookup, hk] at h
      exact ⟨a, by simp [h]⟩
    · simp only [tblLookup, if_neg hk] at h
      obtain ⟨x, hx⟩ := ih h
      exact ⟨x, by simp [hx]⟩

theorem ovLookup_mem (tbl : List (String × Nat)) (k : String) (v : Nat)
    (h : ovLookup tbl k = some v) : ∃ a, (a, v) ∈ tbl := by
  induction tbl with
  | nil => simp [ovLookup] at h
  | cons p rest ih =>
    obtain ⟨a, b⟩ := p
    by_cases hk : a = k
    · simp [ovLookup, hk] at h
      exact ⟨a, by simp [h]⟩
    · simp only [ovLookup, if_neg hk] at h
      obtain ⟨x, hx⟩ := ih h
      exact ⟨x, by simp [hx]⟩

theorem ovLookup_val12 (k : String) (v : Nat)
    (h : ovLookup VALENCE_OVERRIDES k = some v) : v = 1 ∨ v = 2 := by
  obtain ⟨a, ha⟩ := ovLookup_mem _ k v h
  exact override_vals_12 (a, v) ha

theorem findInPath_mem (l : List String) (c : String)
    (h : findInPath l = some c) : ∃ a, (a, c) ∈ SUPERCLASS_ROOTS := by
  induction l with
  | nil => simp [findInPath] at h
  | cons n ns ih =>
    simp only [findInPath] at h
    cases htl : tblLookup SUPERCLASS_ROOTS n with
    | some b =>
      rw [htl] at h
      cases h
      exact tblLookup_mem _ n c htl
    | none =>
      rw [htl] at h
      exact ih h

theorem findInPaths_mem (ls : List (List String)) (c : String)
    (h : findInPaths ls = some c) : ∃ a, (a, c) ∈ SUPERCLASS_ROOTS := by
  induction ls with
  | nil => simp [findInPaths] at h
  | cons p ps ih =>
    simp only [findInPaths] at h
    cases hfp : findInPath p.reverse with
    | some b =>
      rw [hfp] at h
      cases h
      exact findInPath_mem _ c hfp
    | none =>
      rw [hfp] at h
      exact ih h

theorem fallback_mem (p : String) : getFallbackSuperclass p ∈ fallbackCodes := by
  unfold getFallbackSuperclass fallbackCodes
  split_ifs <;> simp

theorem gsc_eq_error (s : Synset) (e : String) (h : s.paths = .error e) :
    get_superclass_code s = getFallbackSuperclass s.pos := by
  unfold get_superclass_code
  rw [h]

theorem gsc_eq_nil (s : Synset) (h : s.paths = .ok []) :
    get_superclass_code s = getFallbackSuperclass s.pos := by
  unfold get_superclass_code
  rw [h]

theorem gsc_eq_cons (s : Synset) (p : List String) (ps : List (List String))
    (h : s.paths = .ok (p :: ps)) :
    get_superclass_code s
      = match findInPaths (p :: ps) with
        | some c => c
        | none => getFallbackSuperclass s.pos := by
  unfold get_superclass_code
  rw [h]

theorem gsc_shape (s : Synset) :
    (∃ a, (a, get_superclass_code s) ∈ SUPERCLASS_ROOTS)
      ∨ get_superclass_code s ∈ fallbackCodes := by
  cases hsp : s.paths with
  | error e =>
    rw [gsc_eq_error s e hsp]
    exact Or.inr (fallback_mem s.pos)
  | ok paths =>
    cases paths with
    | nil =>
      rw [gsc_eq_nil s hsp]
      exact Or.inr (fallback_mem s.pos)
    | cons p ps =>
      rw [gsc_eq_cons s p ps hsp]
      cases hf : findInPaths (p :: ps) with
      | some c => exact Or.inl (findInPaths_mem _ c hf)
      | none => exact Or.inr (fallback_mem s.pos)

theorem gsc_4digit (s : Synset) :
    (get_superclass_code s).length = 4
      ∧ (get_superclass_code s).data.all Char.isDigit = true := by
  rcases gsc_shape s with ⟨a, ha⟩ | hf
  · exact superclass_values_4digit _ ha
  · exact fallback_4digit _ hf

theorem gsc_no_dash (s : Synset) : '-' ∉ (get_superclass_code s).data :=
  all_digits_no_dash _ (gsc_4digit s).2

set_option maxRecDepth 40000 in
theorem superclass_disjoint_fallback :
    ∀ p ∈ SUPERCLASS_ROOTS, p.2 ∉ fallbackCodes := by
  decide

theorem ends999_iff (s : Synset) :
    pyEndsWith (get_superclass_code s) "999" = true
      ↔ get_superclass_code s ∈ fallbackCodes := by
  constructor
  · intro h
    rcases gsc_shape s with ⟨a, ha⟩ | hf
    · rw [superclass_values_not999 _ ha] at h
      cases h
    · exact hf
  · intro h
    exact fallback_ends999 _ h

theorem gvs_eq_none : get_valence_sentiwordnet none = 0 := rfl

theorem gvs_eq_some (p n : Rat) :
    get_valence_sentiwordnet (some (p, n))
      = (if p > n then
           if p ≥ mkRat 25 100 then 1 else if p ≥ mkRat 1 10 then 1 else 0
         else if n > p then
           if n ≥ mkRat 25 100 then 2 else if n ≥ mkRat 1 10 then 2 else 0
         else 0) := rfl

theorem gvs_range (o : Option (Rat × Rat)) :
    get_valence_sentiwordnet o = 0 ∨ get_valence_sentiwordnet o = 1
      ∨ get_valence_sentiwordnet o = 2 := by
  cases o with
  | none => rw [gvs_eq_none]; simp
  | some pn =>
    obtain ⟨p, n⟩ := pn
    rw [gvs_eq_some]
    split_ifs <;> simp

theorem gvwo_range (o : Option (Rat × Rat)) (w : String) :
    get_valence_with_override o w = 0 ∨ get_valence_with_override o w = 1
      ∨ get_valence_with_override o w = 2 := by
  unfold get_valence_with_override
  cases h : ovLookup VALENCE_OVERRIDES (pyLower w) with
  | some v =>
    rcases ovLookup_val12 _ v h with rfl | rfl
    · simp
    · simp
  | none => exact gvs_range o

theorem abstractness_eq_error (s : Synset) (e : String)
    (h : s.paths = .error e) : get_abstractness s = 1 := by
  unfold get_abstractness
  rw [h]

theorem abstractness_eq_ok (s : Synset) (paths : List (List String))
    (h : s.paths = .ok paths) :
    get_abstractness s
      = (if paths.flatten.any (fun n => ABSTRACT_HYPERNYMS.contains n)
            && !paths.flatten.any (fun n => CONCRETE_HYPERNYMS.contains n)
         then 2
         else if paths.flatten.any (fun n => CONCRETE_HYPERNYMS.contains n)
            && !paths.flatten.any (fun n => ABSTRACT_HYPERNYMS.contains n)
         then 0
         else 1) := by
  unfold get_abstractness
  rw [h]

theorem abstractness_range (s : Synset) :
    get_abstractness s = 0 ∨ get_abstractness s = 1 ∨ get_abstractness s = 2 := by
  cases hsp : s.paths with
  | error e => rw [abstractness_eq_error s e hsp]; simp
  | ok paths =>
    rw [abstractness_eq_ok s paths hsp]
    split_ifs <;> simp

theorem POS_MAP_range (p : String) :
    POS_MAP p = 1 ∨ POS_MAP p = 2 ∨ POS_MAP p = 3 ∨ POS_MAP p = 4 := by
  unfold POS_MAP
  split_ifs <;> simp

theorem format5_no_dash (n : Nat) : '-' ∉ (format5 n).data := by
  unfold format5
  intro h
  rw [show (String.mk (List.replicate (5 - (natDigits n).length) '0'
    ++ natDigits n)).data = List.replicate (5 - (natDigits n).length) '0'
    ++ natDigits n from rfl] at h
  rcases List.mem_append.mp h with h | h
  · have := List.eq_of_mem_replicate h
    cases this
  · exact natDigits_no_dash n h

theorem format5_digits (n : Nat) :
    (format5 n).data.all Char.isDigit = true := by
  unfold format5
  rw [List.all_eq_true]
  intro c hc
  rcases List.mem_append.mp hc with h | h
  · rw [List.eq_of_mem_replicate h]
    decide
  · exact natDigits_isDigit n c h

theorem format5_len5 (n : Nat) (h : n < 100000) : (format5 n).length = 5 := by
  have hle : (natDigits n).length ≤ 5 :=
    natDigits_length_le 5 n (by omega) (by omega)
  unfold format5
  rw [show (String.mk (List.replicate (5 - (natDigits n).length) '0'
    ++ natDigits n)).length = (List.replicate (5 - (natDigits n).length) '0'
    ++ natDigits n).length from rfl]
  rw [List.length_append, List.length_replicate]
  omega

/-! ## Point-update machinery -/

theorem foldl_map_comm {A B : Type} (g : A → B → B) (as : List A)
    (t : List B) :
    as.foldl (fun t a => t.map (fun b => g a b)) t
      = t.map (fun b => as.foldl (fun b a => g a b) b) := by
  induction as generalizing t with
  | nil => simp
  | cons a as ih =>
    show as.foldl _ (t.map fun b => g a b) = _
    rw [ih, List.map_map]
    rfl

theorem applyFixes_eq_map (t : List Row)
    (fixes : List (String × String × String)) :
    applyFixes t fixes = t.map (perRowFix fixes) := by
  unfold applyFixes perRowFix
  exact foldl_map_comm (fun fx r => updRow fx.2.1 fx.2.2 fx.1 r) fixes t

theorem applyOverrideWord_eq_map (t : List Row) (w : String) (v : Nat) :
    applyOverrideWord t w v = t.map (perRowOv w v (wordCodes t w)) := by
  unfold applyOverrideWord perRowOv
  exact foldl_map_comm (fun old r => ovRow w v old r) (wordCodes t w) t

theorem updRow_word (w old new : String) (r : Row) :
    (updRow w old new r).word = r.word := by
  unfold updRow
  split_ifs <;> rfl

theorem updRow_priority (w old new : String) (r : Row) :
    (updRow w old new r).priority = r.priority := by
  unfold updRow
  split_ifs <;> rfl

theorem ovRow_word (w : String) (v : Nat) (old : String) (r : Row) :
    (ovRow w v old r).word = r.word := by
  unfold ovRow
  split_ifs <;> rfl

theorem ovRow_priority (w : String) (v : Nat) (old : String) (r : Row) :
    (ovRow w v old r).priority = r.priority := by
  unfold ovRow
  split_ifs <;> rfl

theorem perRowFix_word (fixes : List (String × String × String)) (r : Row) :
    (perRowFix fixes r).word = r.word := by
  induction fixes generalizing r with
  | nil => rfl
  | cons fx fixes ih =>
    show (perRowFix fixes (updRow fx.2.1 fx.2.2 fx.1 r)).word = r.word
    rw [ih, updRow_word]

theorem perRowFix_priority (fixes : List (String × String × String)) (r : Row) :
    (perRowFix fixes r).priority = r.priority := by
  induction fixes generalizing r with
  | nil => rfl
  | cons fx fixes ih =>
    show (perRowFix fixes (updRow fx.2.1 fx.2.2 fx.1 r)).priority = r.priority
    rw [ih, updRow_priority]

theorem perRowOv_word (w : String) (v : Nat) (codes : List String) (r : Row) :
    (perRowOv w v codes r).word = r.word := by
  induction codes generalizing r with
  | nil => rfl
  | cons old codes ih =>
    show (perRowOv w v codes (ovRow w v old r)).word = r.word
    rw [ih, ovRow_word]

theorem mem_wordCodes (t : List Row) (r : Row) (h : r ∈ t) :
    r.code ∈ wordCodes t r.word := by
  unfold wordCodes
  exact List.mem_map_of_mem _ (List.mem_filter.mpr ⟨h, by simp⟩)

theorem opposite_12 (v : Nat) : opposite v = 1 ∨ opposite v = 2 := by
  unfold opposite
  split_ifs <;> simp

theorem part4_zero_len5 (c : String) (h : part4 c = "0") :
    5 ≤ (pySplitDash c).length := by
  by_contra hlt
  unfold part4 at h
  rw [List.getD_eq_default] at h
  · exact absurd h (by decide)
  · omega

theorem rewriteValence_part4 (parts : List String) (d : Nat)
    (hlen : 4 ≤ parts.length) (hnd : ∀ q ∈ parts, '-' ∉ q.data) :
    part4 (rewriteValence parts d) = natStr d := by
  have htk : (parts.take 4).length = 4 := by
    rw [List.length_take]
    omega
  have hsp : pySplitDash (rewriteValence parts d)
      = parts.take 4 ++ [natStr d] := by
    unfold rewriteValence
    apply pySplitDash_pyJoinDash
    · simp
    · intro q hq
      rcases List.mem_append.mp hq with hq | hq
      · exact hnd q (List.mem_of_mem_take hq)
      · rw [List.mem_singleton.mp hq]
        exact natStr_no_dash d
  unfold part4
  rw [hsp]
  have : (parts.take 4 ++ [natStr d]).getD 4 ""
      = ([natStr d] : List String).getD (4 - (parts.take 4).length) "" := by
    apply List.getD_append_right
    omega
  rw [this, htk]
  rfl

theorem fixesFor_shape (t : List Row) (w : String) (d : Nat) :
    ∀ fx ∈ fixesFor t w d,
      fx.2.1 = w ∧ part4 fx.2.2 = "0"
        ∧ fx.1 = rewriteValence (pySplitDash fx.2.2) d := by
  unfold fixesFor
  intro fx hfx
  rcases List.mem_filterMap.mp hfx with ⟨old, _, hsome⟩
  by_cases hz : (pySplitDash old).getD 4 "" = "0"
  · rw [if_pos hz] at hsome
    cases hsome
    exact ⟨rfl, hz, rfl⟩
  · rw [if_neg hz] at hsome
    cases hsome

theorem collectFixes_shape (t : List Row) (ps : List (String × String)) :
    ∀ fx ∈ collectFixes t ps,
      ∃ d, (d = 1 ∨ d = 2) ∧ fx ∈ fixesFor t fx.2.1 d := by
  induction ps with
  | nil => simp [collectFixes]
  | cons p ps ih =>
    obtain ⟨w1, w2⟩ := p
    intro fx hfx
    simp only [collectFixes] at hfx
    rcases List.mem_append.mp hfx with hfx | hfx
    · cases hc1 : wordCodes t w1 with
      | nil => rw [hc1] at hfx; cases hfx
      | cons c1 r1 =>
        cases hc2 : wordCodes t w2 with
        | nil => rw [hc1, hc2] at hfx; cases hfx
        | cons c2 r2 =>
          rw [hc1, hc2] at hfx
          have hfx2 : fx ∈
              (if (ovLookup VALENCE_OVERRIDES (pyLower w1)).isSome
                  ∨ (ovLookup VALENCE_OVERRIDES (pyLower w2)).isSome then
                  ([] : List (String × String × String))
                else if pyIntD (part4 c1) = 0 ∧ pyIntD (part4 c2) ≠ 0 then
                  fixesFor t w1 (opposite (pyIntD (part4 c2)))
                else if pyIntD (part4 c2) = 0 ∧ pyIntD (part4 c1) ≠ 0 then
                  fixesFor t w2 (opposite (pyIntD (part4 c1)))
                else []) := hfx
          split_ifs at hfx2 with hov hv1 hv2
          · cases hfx2
          · refine ⟨opposite (pyIntD (part4 c2)), opposite_12 _, ?_⟩
            have hw : fx.2.1 = w1 := (fixesFor_shape t w1 _ fx hfx2).1
            rw [hw]
            exact hfx2
          · refine ⟨opposite (pyIntD (part4 c1)), opposite_12 _, ?_⟩
            have hw : fx.2.1 = w2 := (fixesFor_shape t w2 _ fx hfx2).1
            rw [hw]
            exact hfx2
          · cases hfx2
    · exact ih fx hfx

theorem perRowFix_keep (fixes : List (String × String × String)) (r : Row)
    (hsh : ∀ fx ∈ fixes, part4 fx.2.2 = "0")
    (h : part4 r.code ≠ "0") : perRowFix fixes r = r := by
  induction fixes generalizing r with
  | nil => rfl
  | cons fx fixes ih =>
    show perRowFix fixes (updRow fx.2.1 fx.2.2 fx.1 r) = r
    have hne : ¬ (r.word = fx.2.1 ∧ r.code = fx.2.2) := by
      rintro ⟨_, hc⟩
      exact h (hc ▸ hsh fx (by simp))
    rw [show updRow fx.2.1 fx.2.2 fx.1 r = r from if_neg hne]
    exact ih r (fun g hg => hsh g (by simp [hg])) h

theorem pyIntD_digit0 : pyIntD "0" = 0 := by decide

theorem pyIntD_digit1 : pyIntD "1" = 1 := by decide

theorem pyIntD_digit2 : pyIntD "2" = 2 := by decide

theorem natStr_zero : natStr 0 = "0" := by decide

theorem natStr_one : natStr 1 = "1" := by decide

theorem natStr_two : natStr 2 = "2" := by decide

theorem fixesFor_mem (t : List Row) (w : String) (d : Nat) :
    ∀ fx ∈ fixesFor t w d, fx.2.2 ∈ wordCodes t w := by
  unfold fixesFor
  intro fx hfx
  rcases List.mem_filterMap.mp hfx with ⟨old, hold, hsome⟩
  by_cases hz : (pySplitDash old).getD 4 "" = "0"
  · rw [if_pos hz] at hsome
    cases hsome
    exact hold
  · rw [if_neg hz] at hsome
    cases hsome

theorem perRowFix_cons (fx : String × String × String)
    (fixes : List (String × String × String)) (r : Row) :
    perRowFix (fx :: fixes) r = perRowFix fixes (updRow fx.2.1 fx.2.2 fx.1 r) :=
  rfl

theorem fixesFor_covers (t : List Row) (w : String) (d : Nat) (old : String)
    (hold : old ∈ wordCodes t w) (hz : part4 old = "0") :
    (rewriteValence (pySplitDash old) d, w, old) ∈ fixesFor t w d := by
  unfold fixesFor
  apply List.mem_filterMap.mpr
  refine ⟨old, hold, ?_⟩
  simp only [part4] at hz
  show (if (pySplitDash old).getD 4 "" = "0"
    then some (rewriteValence (pySplitDash old) d, w, old) else none)
      = some (rewriteValence (pySplitDash old) d, w, old)
  rw [if_pos hz]

/-- Every fix rewrites a five-field code whose valence digit is `0` to the
same code with digit 1 or 2. -/
theorem collectFixes_full_shape (t : List Row) (ps : List (String × String)) :
    ∀ fx ∈ collectFixes t ps,
      part4 fx.2.2 = "0" ∧ ∃ d, (d = 1 ∨ d = 2)
        ∧ fx.1 = rewriteValence (pySplitDash fx.2.2) d := by
  intro fx hfx
  obtain ⟨d, hd, hmem⟩ := collectFixes_shape t ps fx hfx
  obtain ⟨_, hz, hrw⟩ := fixesFor_shape t fx.2.1 d fx hmem
  exact ⟨hz, d, hd, hrw⟩

theorem part4_rewrite_of_zero (c : String) (d : Nat) (hz : part4 c = "0") :
    part4 (rewriteValence (pySplitDash c) d) = natStr d := by
  apply rewriteValence_part4
  · have := part4_zero_len5 c hz
    omega
  · exact pySplitDash_no_dash c

/-- Row-level effect of the whole fix list: a row is either untouched, or
its valence digit was `0` and the row is the 0-digit code rewritten to
digit 1 or 2. -/
theorem perRowFix_cases (fixes : List (String × String × String)) (r : Row)
    (hsh : ∀ fx ∈ fixes, part4 fx.2.2 = "0" ∧ ∃ d, (d = 1 ∨ d = 2)
      ∧ fx.1 = rewriteValence (pySplitDash fx.2.2) d) :
    perRowFix fixes r = r
      ∨ (part4 r.code = "0" ∧ ∃ d, (d = 1 ∨ d = 2)
          ∧ perRowFix fixes r
            = { r with code := rewriteValence (pySplitDash r.code) d }) := by
  induction fixes generalizing r with
  | nil => exact Or.inl rfl
  | cons fx fixes ih =>
    obtain ⟨hz, d, hd, hrw⟩ := hsh fx (by simp)
    by_cases hm : r.word = fx.2.1 ∧ r.code = fx.2.2
    · right
      have hzr : part4 r.code = "0" := by rw [hm.2]; exact hz
      refine ⟨hzr, d, hd, ?_⟩
      have hstep : updRow fx.2.1 fx.2.2 fx.1 r
          = { r with code := rewriteValence (pySplitDash r.code) d } := by
        unfold updRow
        rw [if_pos hm, hrw, hm.2]
      rw [perRowFix_cons, hstep]
      apply perRowFix_keep
      · exact fun g hg => (hsh g (by simp [hg])).1
      · show part4 (rewriteValence (pySplitDash r.code) d) ≠ "0"
        rw [part4_rewrite_of_zero r.code d hzr]
        rcases hd with rfl | rfl
        · rw [natStr_one]; decide
        · rw [natStr_two]; decide
    · have hstep : updRow fx.2.1 fx.2.2 fx.1 r = r := by
        unfold updRow
        rw [if_neg hm]
      rw [perRowFix_cons, hstep]
      exact ih r (fun g hg => hsh g (by simp [hg]))

/-- If every fix writes target digit string `dstr` and some fix matches
the row exactly, the row ends with digit `dstr`. -/
theorem perRowFix_hits (fixes : List (String × String × String)) (r : Row)
    (dstr : String) (hne : dstr ≠ "0")
    (hall : ∀ fx ∈ fixes, part4 fx.2.2 = "0" ∧ part4 fx.1 = dstr)
    (hex : ∃ fx ∈ fixes, fx.2.1 = r.word ∧ fx.2.2 = r.code) :
    part4 (perRowFix fixes r).code = dstr := by
  induction fixes generalizing r with
  | nil => simp at hex
  | cons fx fixes ih =>
    by_cases hm : r.word = fx.2.1 ∧ r.code = fx.2.2
    · have hstep : updRow fx.2.1 fx.2.2 fx.1 r = { r with code := fx.1 } := by
        unfold updRow
        rw [if_pos hm]
      rw [perRowFix_cons, hstep]
      have hkeep : perRowFix fixes { r with code := fx.1 }
          = { r with code := fx.1 } := by
        apply perRowFix_keep
        · exact fun g hg => (hall g (by simp [hg])).1
        · show part4 fx.1 ≠ "0"
          rw [(hall fx (by simp)).2]
          exact hne
      rw [hkeep]
      exact (hall fx (by simp)).2
    · have hstep : updRow fx.2.1 fx.2.2 fx.1 r = r := by
        unfold updRow
        rw [if_neg hm]
      rw [perRowFix_cons, hstep]
      obtain ⟨g, hg, hg1, hg2⟩ := hex
      rcases List.mem_cons.mp hg with rfl | hg
      · exact absurd ⟨hg1.symm, hg2.symm⟩ hm
      · exact ih r (fun q hq => hall q (by simp [hq])) ⟨g, hg, hg1, hg2⟩

/-- The antonym pass preserves weak well-formedness. -/
theorem TableP5_antonymPass (t : List Row) (ps : List (String × String))
    (h : TableP5 t) : TableP5 (antonymPass t ps) := by
  unfold antonymPass
  rw [applyFixes_eq_map]
  intro r hr
  rcases List.mem_map.mp hr with ⟨r0, hr0, rfl⟩
  rcases perRowFix_cases _ r0 (collectFixes_full_shape t ps) with he | ⟨hz, d, hd, he⟩
  · rw [he]
    exact h r0 hr0
  · rw [he]
    exact P5_rewrite r0.code d (h r0 hr0) hd

/-- The antonym pass preserves the full code format. -/
theorem TableFmt_antonymPass (t : List Row) (ps : List (String × String))
    (h : TableFmt t) : TableFmt (antonymPass t ps) := by
  unfold antonymPass
  rw [applyFixes_eq_map]
  intro r hr
  rcases List.mem_map.mp hr with ⟨r0, hr0, rfl⟩
  rcases perRowFix_cases _ r0 (collectFixes_full_shape t ps) with he | ⟨hz, d, hd, he⟩
  · rw [he]
    exact h r0 hr0
  · rw [he]
    exact fmt_rewrite r0.code d (h r0 hr0) hd

/-! ## Override-pass machinery -/

theorem ovLookup_mem_self (tbl : List (String × Nat)) (k : String) (v : Nat)
    (h : ovLookup tbl k = some v) : (k, v) ∈ tbl := by
  induction tbl with
  | nil => simp [ovLookup] at h
  | cons p rest ih =>
    obtain ⟨a, b⟩ := p
    by_cases hk : a = k
    · simp [ovLookup, hk] at h
      subst hk
      simp [h]
    · simp only [ovLookup, if_neg hk] at h
      simp [ih h]

theorem perRowOv_cons (w : String) (v : Nat) (old : String)
    (codes : List String) (r : Row) :
    perRowOv w v (old :: codes) r = perRowOv w v codes (ovRow w v old r) :=
  rfl

theorem pyIntD_natStr_12 (v : Nat) (hv : v = 1 ∨ v = 2) :
    pyIntD (natStr v) = v := by
  rcases hv with rfl | rfl
  · rw [natStr_one, pyIntD_digit1]
  · rw [natStr_two, pyIntD_digit2]

theorem digit_eq_of_pyIntD (s : String) (hs : s = "0" ∨ s = "1" ∨ s = "2")
    (v : Nat) (hv : v = 1 ∨ v = 2) (he : pyIntD s = v) : s = natStr v := by
  rcases hv with rfl | rfl
  · rw [natStr_one]
    rcases hs with rfl | rfl | rfl
    · exact absurd he (by decide)
    · rfl
    · exact absurd he (by decide)
  · rw [natStr_two]
    rcases hs with rfl | rfl | rfl
    · exact absurd he (by decide)
    · exact absurd he (by decide)
    · rfl

theorem perRowOv_keep_word (w : String) (v : Nat) (codes : List String)
    (r : Row) (h : r.word ≠ w) : perRowOv w v codes r = r := by
  induction codes generalizing r with
  | nil => rfl
  | cons old codes ih =>
    rw [perRowOv_cons]
    have hstep : ovRow w v old r = r := by
      unfold ovRow
      rw [if_neg (by rintro ⟨_, hw, _⟩; exact h hw)]
    rw [hstep]
    exact ih r h

theorem perRowOv_keep_done (w : String) (v : Nat) (codes : List String)
    (r : Row) (hv : v = 1 ∨ v = 2) (hr : part4 r.code = natStr v) :
    perRowOv w v codes r = r := by
  induction codes generalizing r with
  | nil => rfl
  | cons old codes ih =>
    rw [perRowOv_cons]
    have hstep : ovRow w v old r = r := by
      unfold ovRow
      rw [if_neg ?_]
      rintro ⟨hdv, _, hco⟩
      apply hdv
      rw [← hco, hr]
      exact pyIntD_natStr_12 v hv
    rw [hstep]
    exact ih r hr

theorem perRowOv_hits (w : String) (v : Nat) (codes : List String) (r : Row)
    (hv : v = 1 ∨ v = 2) (hw : r.word = w) (hc : r.code ∈ codes)
    (hP : P5 r.code) :
    part4 (perRowOv w v codes r).code = natStr v := by
  induction codes generalizing r with
  | nil => cases hc
  | cons old codes ih =>
    rw [perRowOv_cons]
    by_cases he : r.code = old
    · by_cases hdv : pyIntD (part4 old) = v
      · have hdig : part4 r.code = natStr v :=
          digit_eq_of_pyIntD (part4 r.code) (by simpa using hP.2) v hv
            (by rw [he]; exact hdv)
        have hstep : ovRow w v old r = r := by
          unfold ovRow
          rw [if_neg (by rintro ⟨hne, _, _⟩; exact hne hdv)]
        rw [hstep, perRowOv_keep_done w v codes r hv hdig]
        exact hdig
      · have hstep : ovRow w v old r
            = { r with code := rewriteValence (pySplitDash old) v } := by
          unfold ovRow
          rw [if_pos ⟨hdv, hw, he⟩]
        have hdig : part4 (rewriteValence (pySplitDash old) v) = natStr v := by
          apply rewriteValence_part4 _ _ ?_ (pySplitDash_no_dash old)
          rw [← he, hP.1]
          omega
        rw [hstep, perRowOv_keep_done w v codes _ hv hdig]
        exact hdig
    · have hstep : ovRow w v old r = r := by
        unfold ovRow
        rw [if_neg (by rintro ⟨_, _, hco⟩; exact he hco)]
      rw [hstep]
      rcases List.mem_cons.mp hc with h | h
      · exact absurd h he
      · exact ih r hw h hP

theorem perRowOv_cases (w : String) (v : Nat) (codes : List String) (r : Row)
    (hv : v = 1 ∨ v = 2) (hP : P5 r.code) :
    perRowOv w v codes r = r
      ∨ perRowOv w v codes r
          = { r with code := rewriteValence (pySplitDash r.code) v } := by
  induction codes generalizing r with
  | nil => exact Or.inl rfl
  | cons old codes ih =>
    rw [perRowOv_cons]
    by_cases hg : pyIntD (part4 old) ≠ v ∧ r.word = w ∧ r.code = old
    · right
      have hstep : ovRow w v old r
          = { r with code := rewriteValence (pySplitDash r.code) v } := by
        unfold ovRow
        rw [if_pos hg, hg.2.2]
      have hdig : part4 (rewriteValence (pySplitDash r.code) v) = natStr v := by
        apply rewriteValence_part4 _ _ ?_ (pySplitDash_no_dash r.code)
        rw [hP.1]
        omega
      rw [hstep, perRowOv_keep_done w v codes _ hv hdig]
    · have hstep : ovRow w v old r = r := by
        unfold ovRow
        rw [if_neg hg]
      rw [hstep]
      exact ih r hP

theorem applyOverrideWord_P5 (t : List Row) (w : String) (v : Nat)
    (hP : TableP5 t) (hv : v = 1 ∨ v = 2) :
    TableP5 (applyOverrideWord t w v) := by
  rw [applyOverrideWord_eq_map]
  intro r hr
  rcases List.mem_map.mp hr with ⟨r0, hr0, rfl⟩
  rcases perRowOv_cases w v (wordCodes t w) r0 hv (hP r0 hr0) with he | he
  · rw [he]
    exact hP r0 hr0
  · rw [he]
    exact P5_rewrite r0.code v (hP r0 hr0) hv

theorem applyOverrideWord_fmt (t : List Row) (w : String) (v : Nat)
    (hF : TableFmt t) (hv : v = 1 ∨ v = 2) :
    TableFmt (applyOverrideWord t w v) := by
  rw [applyOverrideWord_eq_map]
  intro r hr
  rcases List.mem_map.mp hr with ⟨r0, hr0, rfl⟩
  rcases perRowOv_cases w v (wordCodes t w) r0 hv
      (P5_of_fmt r0.code (hF r0 hr0)) with he | he
  · rw [he]
    exact hF r0 hr0
  · rw [he]
    exact fmt_rewrite r0.code v (hF r0 hr0) hv

/-- Main invariant of the terminal override pass: once the pair list `l`
is processed, any row whose word has a pair in `l` carries the override
digit of its (dict-lookup) value; rows of words already correct stay
correct. -/
theorem overrideFold_main (l : List (String × Nat)) :
    ∀ (t : List Row) (W : String → Prop),
    TableP5 t →
    (∀ p ∈ l, ovLookup VALENCE_OVERRIDES p.1 = some p.2) →
    (∀ r ∈ t, W r.word →
      ∀ v, ovLookup VALENCE_OVERRIDES r.word = some v → part4 r.code = natStr v) →
    TableP5 (l.foldl (fun t wv => applyOverrideWord t wv.1 wv.2) t)
    ∧ ∀ r ∈ l.foldl (fun t wv => applyOverrideWord t wv.1 wv.2) t,
        (W r.word ∨ ∃ p ∈ l, p.1 = r.word) →
        ∀ v, ovLookup VALENCE_OVERRIDES r.word = some v →
          part4 r.code = natStr v := by
  induction l with
  | nil =>
    intro t W hP _ hdone
    refine ⟨hP, ?_⟩
    intro r hr hcase v hlk
    rcases hcase with hW | ⟨p, hp, _⟩
    · exact hdone r hr hW v hlk
    · cases hp
  | cons p l ih =>
    obtain ⟨w0, v0⟩ := p
    intro t W hP hcoh hdone
    have hlk0 : ovLookup VALENCE_OVERRIDES w0 = some v0 := hcoh (w0, v0) (by simp)
    have hv0 : v0 = 1 ∨ v0 = 2 := ovLookup_val12 _ _ hlk0
    have hP1 : TableP5 (applyOverrideWord t w0 v0) :=
      applyOverrideWord_P5 t w0 v0 hP hv0
    have hdone1 : ∀ r ∈ applyOverrideWord t w0 v0, (W r.word ∨ r.word = w0) →
        ∀ v, ovLookup VALENCE_OVERRIDES r.word = some v →
          part4 r.code = natStr v := by
      rw [applyOverrideWord_eq_map]
      intro r hr hWr v hlk
      rcases List.mem_map.mp hr with ⟨r0, hr0, rfl⟩
      have hword : (perRowOv w0 v0 (wordCodes t w0) r0).word = r0.word :=
        perRowOv_word w0 v0 _ r0
      by_cases hw : r0.word = w0
      · have hset : part4 (perRowOv w0 v0 (wordCodes t w0) r0).code
            = natStr v0 := by
          apply perRowOv_hits w0 v0 _ r0 hv0 hw
          · rw [← hw]
            exact mem_wordCodes t r0 hr0
          · exact hP r0 hr0
        have hveq : v = v0 := by
          rw [hword, hw, hlk0] at hlk
          exact (Option.some_inj.mp hlk).symm
        rw [hset, hveq]
      · have hWcase : W r0.word := by
          rcases hWr with hW | hww
          · rwa [hword] at hW
          · rw [hword] at hww
            exact absurd hww hw
        have hkeep : perRowOv w0 v0 (wordCodes t w0) r0 = r0 :=
          perRowOv_keep_word w0 v0 _ r0 hw
        rw [hkeep] at hlk ⊢
        exact hdone r0 hr0 hWcase v hlk
    have hmain := ih (applyOverrideWord t w0 v0) (fun w => W w ∨ w = w0) hP1
      (fun q hq => hcoh q (by simp [hq])) hdone1
    refine ⟨hmain.1, ?_⟩
    intro r hr hcase v hlk
    apply hmain.2 r hr ?_ v hlk
    rcases hcase with hW | ⟨q, hq, hqw⟩
    · exact Or.inl (Or.inl hW)
    · rcases List.mem_cons.mp hq with rfl | hq
      · exact Or.inl (Or.inr hqw.symm)
      · exact Or.inr ⟨q, hq, hqw⟩

/-- After the terminal override pass, every row of an override word
carries the override digit. -/
theorem overridePass_sets (t : List Row) (hP : TableP5 t) :
    ∀ r ∈ overridePass t, ∀ v,
      ovLookup VALENCE_OVERRIDES r.word = some v → part4 r.code = natStr v := by
  intro r hr v hlk
  have h := overrideFold_main VALENCE_OVERRIDES t (fun _ => False) hP ov_self
    (by intro r _ hF; cases hF)
  apply h.2 r hr ?_ v hlk
  exact Or.inr ⟨(r.word, v), ovLookup_mem_self _ _ _ hlk, rfl⟩

theorem overrideFold_fmt (l : List (String × Nat)) :
    ∀ t : List Row, TableFmt t → (∀ p ∈ l, p.2 = 1 ∨ p.2 = 2) →
    TableFmt (l.foldl (fun t wv => applyOverrideWord t wv.1 wv.2) t) := by
  induction l with
  | nil => intro t hF _; exact hF
  | cons p l ih =>
    intro t hF hvals
    exact ih (applyOverrideWord t p.1 p.2)
      (applyOverrideWord_fmt t p.1 p.2 hF (hvals p (by simp)))
      (fun q hq => hvals q (by simp [hq]))

theorem overridePass_fmt (t : List Row) (hF : TableFmt t) :
    TableFmt (overridePass t) :=
  overrideFold_fmt VALENCE_OVERRIDES t hF override_vals_12

/-! ## Entry-generation invariants -/

theorem natStr_three : natStr 3 = "3" := by decide

theorem natStr_four : natStr 4 = "4" := by decide

theorem bulkInsert_subset (es : List Row) : ∀ r ∈ bulkInsert es, r ∈ es := by
  unfold bulkInsert
  suffices h : ∀ acc : List Row, ∀ r ∈ es.foldl (fun t e =>
      if t.any (fun r => r.word = e.word ∧ r.code = e.code) then t
      else t ++ [e]) acc, r ∈ acc ∨ r ∈ es by
    intro r hr
    rcases h [] r hr with hc | hc
    · cases hc
    · exact hc
  induction es with
  | nil => intro acc r hr; exact Or.inl hr
  | cons e es ih =>
    intro acc r hr
    rcases ih _ r hr with hc | hc
    · have hc2 : r ∈ (if (acc.any fun x =>
          decide (x.word = e.word ∧ x.code = e.code)) = true
          then acc else acc ++ [e]) := hc
      by_cases hdup : (acc.any fun x =>
          decide (x.word = e.word ∧ x.code = e.code)) = true
      · rw [if_pos hdup] at hc2
        exact Or.inl hc2
      · rw [if_neg hdup] at hc2
        rcases List.mem_append.mp hc2 with h | h
        · exact Or.inl h
        · exact Or.inr (by simp [List.mem_singleton.mp h])
    · exact Or.inr (by simp [hc])

theorem procLemmas_cons_pos (senti : Option (Rat × Rat)) (sc lid : String)
    (pos ab : Nat) (idx : Nat) (l : WnLemma) (ls : List WnLemma)
    (es : List Row) (ps : List (String × String))
    (hck : cleanWordOk (normWord l.name) = true) :
    procLemmas senti sc lid pos ab idx (l :: ls) (es, ps)
      = procLemmas senti sc lid pos ab (idx + 1) ls
          (es ++ [⟨normWord l.name,
                   mkCode sc lid pos ab
                     (get_valence_with_override senti (normWord l.name)),
                   buildPriority sc l.count idx⟩],
           addAntonyms (normWord l.name) l.antonyms ps) := by
  simp only [procLemmas]
  rw [if_pos hck]

theorem procLemmas_cons_neg (senti : Option (Rat × Rat)) (sc lid : String)
    (pos ab : Nat) (idx : Nat) (l : WnLemma) (ls : List WnLemma)
    (es : List Row) (ps : List (String × String))
    (hck : ¬ cleanWordOk (normWord l.name) = true) :
    procLemmas senti sc lid pos ab idx (l :: ls) (es, ps)
      = procLemmas senti sc lid pos ab (idx + 1) ls (es, ps) := by
  simp only [procLemmas]
  rw [if_neg hck]

theorem procLemmas_mem (senti : Option (Rat × Rat)) (sc lid : String)
    (pos ab : Nat) (ls : List WnLemma) :
    ∀ (idx : Nat) (es : List Row) (ps : List (String × String)),
    ∀ r ∈ (procLemmas senti sc lid pos ab idx ls (es, ps)).1,
      r ∈ es ∨ ∃ l, l ∈ ls ∧ ∃ i,
        r = ⟨normWord l.name,
             mkCode sc lid pos ab
               (get_valence_with_override senti (normWord l.name)),
             buildPriority sc l.count i⟩ := by
  induction ls with
  | nil => intro idx es ps r hr; exact Or.inl hr
  | cons l ls ih =>
    intro idx es ps r hr
    by_cases hck : cleanWordOk (normWord l.name) = true
    · rw [procLemmas_cons_pos senti sc lid pos ab idx l ls es ps hck] at hr
      rcases ih (idx + 1) _ _ r hr with hmem | ⟨q, hq, i, he⟩
      · rcases List.mem_append.mp hmem with h | h
        · exact Or.inl h
        · exact Or.inr ⟨l, by simp, idx, List.mem_singleton.mp h⟩
      · exact Or.inr ⟨q, by simp [hq], i, he⟩
    · rw [procLemmas_cons_neg senti sc lid pos ab idx l ls es ps hck] at hr
      rcases ih (idx + 1) _ _ r hr with hmem | ⟨q, hq, i, he⟩
      · exact Or.inl hmem
      · exact Or.inr ⟨q, by simp [hq], i, he⟩

theorem procSynset_entries (st : BState) (s : Synset) :
    (procSynset st s).entries
      = (procLemmas s.senti (get_superclass_code s)
          (format5 (st.ctr (get_superclass_code s) + 1)) (POS_MAP s.pos)
          (get_abstractness s) 0 s.lemmas (st.entries, st.pairs)).1 := by
  unfold procSynset
  simp

theorem procSynset_ctr (st : BState) (s : Synset) (k : String) :
    (procSynset st s).ctr k
      = if k = get_superclass_code s then st.ctr k + 1 else st.ctr k := rfl

/-- Every entry generated by the synset loop is a `mkCode` record whose
local counter stays bounded by the number of synsets seen. -/
theorem genState_mem (syns : List Synset) :
    ∀ (st : BState) (N : Nat),
    (∀ k, st.ctr k ≤ N) →
    (∀ k, (syns.foldl procSynset st).ctr k ≤ N + syns.length)
    ∧ ∀ r ∈ (syns.foldl procSynset st).entries,
      r ∈ st.entries ∨ ∃ s, s ∈ syns ∧ ∃ l, l ∈ s.lemmas ∧ ∃ i n,
        n ≤ N + syns.length ∧
        r = ⟨normWord l.name,
             mkCode (get_superclass_code s) (format5 n) (POS_MAP s.pos)
               (get_abstractness s)
               (get_valence_with_override s.senti (normWord l.name)),
             buildPriority (get_superclass_code s) l.count i⟩ := by
  induction syns with
  | nil =>
    intro st N hctr
    exact ⟨fun k => by simpa using hctr k, fun r hr => Or.inl hr⟩
  | cons s syns ih =>
    intro st N hctr
    have hctr1 : ∀ k, (procSynset st s).ctr k ≤ N + 1 := by
      intro k
      rw [procSynset_ctr]
      split_ifs
      · exact Nat.succ_le_succ (hctr k)
      · exact Nat.le_succ_of_le (hctr k)
    obtain ⟨hctr2, hmem2⟩ := ih (procSynset st s) (N + 1) hctr1
    constructor
    · intro k
      have := hctr2 k
      simpa [Nat.add_assoc, Nat.add_comm 1 syns.length] using this
    · intro r hr
      rcases hmem2 r hr with hmem | ⟨s', hs', l, hl, i, n, hn, he⟩
      · rw [procSynset_entries] at hmem
        rcases procLemmas_mem s.senti _ _ _ _ s.lemmas 0 _ _ r hmem with
          hmem' | ⟨l, hl, i, he⟩
        · exact Or.inl hmem'
        · refine Or.inr ⟨s, by simp, l, hl, i, st.ctr (get_superclass_code s) + 1,
            ?_, he⟩
          have := hctr (get_superclass_code s)
          simp only [List.length_cons]
          omega
      · refine Or.inr ⟨s', by simp [hs'], l, hl, i, n, ?_, he⟩
        simp only [List.length_cons]
        omega

theorem mkCode_P5 (s : Synset) (n pos ab wv : Nat)
    (hwv : wv = 0 ∨ wv = 1 ∨ wv = 2) :
    P5 (mkCode (get_superclass_code s) (format5 n) pos ab wv) := by
  have hsp := mkCode_split (get_superclass_code s) (format5 n) pos ab wv
    (gsc_no_dash s) (format5_no_dash n)
  constructor
  · rw [hsp]
    rfl
  · rw [part4_eq _ _ _ _ _ _ hsp]
    rcases hwv with rfl | rfl | rfl
    · simp [natStr_zero]
    · simp [natStr_one]
    · simp [natStr_two]

theorem mkCode_fmt (s : Synset) (n ab wv : Nat) (hn : n < 100000)
    (hab : ab = 0 ∨ ab = 1 ∨ ab = 2) (hwv : wv = 0 ∨ wv = 1 ∨ wv = 2) :
    fmtOkParts (pySplitDash
      (mkCode (get_superclass_code s) (format5 n) (POS_MAP s.pos) ab wv))
      = true := by
  rw [mkCode_split (get_superclass_code s) (format5 n) (POS_MAP s.pos) ab wv
    (gsc_no_dash s) (format5_no_dash n)]
  simp only [fmtOkParts, Bool.and_eq_true, beq_iff_eq, Bool.or_eq_true]
  refine ⟨⟨⟨⟨⟨⟨(gsc_4digit s).1, (gsc_4digit s).2⟩, format5_len5 n hn⟩,
    format5_digits n⟩, ?_⟩, ?_⟩, ?_⟩
  · rcases POS_MAP_range s.pos with h | h | h | h <;> rw [h] <;>
      simp [natStr_one, natStr_two, natStr_three, natStr_four]
  · rcases hab with rfl | rfl | rfl <;>
      simp [natStr_zero, natStr_one, natStr_two]
  · rcases hwv with rfl | rfl | rfl <;>
      simp [natStr_zero, natStr_one, natStr_two]

theorem genEntries_P5 (syns : List Synset) : TableP5 (genEntries syns) := by
  intro r hr
  unfold genEntries genState at hr
  rcases (genState_mem syns ⟨fun _ => 0, [], []⟩ 0 (fun k => Nat.le_refl 0)).2
      r hr with hmem | ⟨s, _, l, _, i, n, _, he⟩
  · cases hmem
  · rw [he]
    exact mkCode_P5 s n (POS_MAP s.pos) (get_abstractness s) _
      (gvwo_range s.senti (normWord l.name))

theorem genEntries_fmt (syns : List Synset) (hlen : syns.length ≤ 99999) :
    TableFmt (genEntries syns) := by
  intro r hr
  unfold genEntries genState at hr
  rcases (genState_mem syns ⟨fun _ => 0, [], []⟩ 0 (fun k => Nat.le_refl 0)).2
      r hr with hmem | ⟨s, _, l, _, i, n, hn, he⟩
  · cases hmem
  · rw [he]
    exact mkCode_fmt s n (get_abstractness s) _ (by omega)
      (abstractness_range s) (gvwo_range s.senti (normWord l.name))

theorem TableP5_subset (t u : List Row) (hsub : ∀ r ∈ u, r ∈ t)
    (h : TableP5 t) : TableP5 u := fun r hr => h r (hsub r hr)

theorem TableFmt_subset (t u : List Row) (hsub : ∀ r ∈ u, r ∈ t)
    (h : TableFmt t) : TableFmt u := fun r hr => h r (hsub r hr)

/-- The table is weakly well-formed at entry to the terminal override
pass, for any snapshot and any pair enumeration. -/
theorem prePass_P5 (syns : List Synset) (ps : List (String × String)) :
    TableP5 (antonymPass (bulkInsert (genEntries syns)) ps) :=
  TableP5_antonymPass _ ps
    (TableP5_subset _ _ (bulkInsert_subset _) (genEntries_P5 syns))

theorem buildTable_fmt (syns : List Synset) (ps : List (String × String))
    (hlen : syns.length ≤ 99999) : TableFmt (buildTable syns ps) := by
  unfold buildTable
  apply overridePass_fmt
  apply TableFmt_antonymPass
  exact TableFmt_subset _ _ (bulkInsert_subset _) (genEntries_fmt syns hlen)

/-! # Claim theorems -/

/-- C1: Override precedence.  For every word `w` in the override table
(keys are lowercase surface forms and stored words are lowercased), after
the full build — bulk insert, antonym-propagation pass over any
enumeration of the pair set, then the terminal override pass — every code
stored for `w` carries the override's valence digit, regardless of the
lexical scores and of anything antonym propagation wrote earlier. -/
theorem C1_override_precedence (syns : List Synset)
    (ps : List (String × String)) (w : String) (v : Nat)
    (hov : ovLookup VALENCE_OVERRIDES w = some v) :
    ∀ r ∈ buildTable syns ps, r.word = w → part4 r.code = natStr v := by
  intro r hr hw
  unfold buildTable at hr
  apply overridePass_sets _ (prePass_P5 syns ps) r hr v
  rw [hw]
  exact hov

set_option maxRecDepth 200000 in
set_option maxHeartbeats 1000000 in
/-- Witness for C1: the override word `excited` (override valence 1) on a
synset whose lexical scores are negative still stores digit 1. -/
theorem C1_witness :
    ovLookup VALENCE_OVERRIDES "excited" = some 1
    ∧ (∀ r ∈ buildTable [synExcited] [], r.word = "excited" →
        part4 r.code = natStr 1)
    ∧ (buildTable [synExcited] []).map (fun r => (r.word, part4 r.code))
        = [("excited", "1")] :=
  ⟨by decide,
   C1_override_precedence [synExcited] [] "excited" 1 (by decide),
   by decide⟩

/-- C6 counterexample: the claim asserts the local-sequence field renders
as exactly five digits also for a superclass's 100000th concept, but
Python `%05d` only left-pads: at counter 100000 the field has six digits
and the assembled code fails the validator pattern. -/
theorem C6_counterexample :
    (format5 100000).length ≠ 5
    ∧ (validate_code_format (mkCode "0999" (format5 100000) 1 1 0)).1
        = false := by
  constructor
  · decide
  · decide

/-- C6 (amended): provided no superclass receives 100000 or more concepts
(guaranteed when the snapshot holds at most 99999 synsets), every code
stored at the end of the full build matches
`^\d{4}-\d{5}-[1-4]-[0-2]-[0-2]$`, and both valence fix-up passes
preserve the format. -/
theorem C6_format_invariant (syns : List Synset)
    (ps : List (String × String)) (hlen : syns.length ≤ 99999) :
    ∀ r ∈ buildTable syns ps, (validate_code_format r.code).1 = true := by
  intro r hr
  have hfmt := buildTable_fmt syns ps hlen r hr
  unfold validate_code_format
  rw [if_pos hfmt]

set_option maxRecDepth 200000 in
set_option maxHeartbeats 1000000 in
/-- Witness for C6 at a one-synset snapshot. -/
theorem C6_witness :
    ([synExcited] : List Synset).length ≤ 99999
    ∧ (∀ r ∈ buildTable [synExcited] [],
        (validate_code_format r.code).1 = true)
    ∧ (buildTable [synExcited] []).map (fun r => (validate_code_format r.code).1)
        = [true] :=
  ⟨by decide, C6_format_invariant [synExcited] [] (by decide), by decide⟩

set_option maxRecDepth 200000 in
set_option maxHeartbeats 1000000 in
/-- C5: build determinism fails.  `pairsOrderOne` and `pairsOrderTwo` are
two enumerations of the same collected antonym-pair set of the snapshot
`snapABC` (a Python `set`, whose iteration order varies across runs), yet
the two builds disagree: the neutral word `aaa` has a positive antonym
`bbb` and a negative antonym `ccc`, and whichever pair is enumerated
first decides the final digit. -/
theorem C5_order_dependence :
    pairsOrderTwo.Perm pairsOrderOne
    ∧ collectedPairs snapABC = pairsOrderOne
    ∧ buildTable snapABC pairsOrderOne ≠ buildTable snapABC pairsOrderTwo := by
  refine ⟨by decide, by decide, by decide⟩

/-- Bridges for the `mkRat` threshold literals. -/
theorem mkRat_quarter : (mkRat 25 100 : ℚ) = 25/100 := by
  norm_num [Rat.mkRat_eq_divInt, Rat.divInt_eq_div]

theorem mkRat_tenth : (mkRat 1 10 : ℚ) = 1/10 := by
  norm_num [Rat.mkRat_eq_divInt, Rat.divInt_eq_div]

/-- C2 counterexample: the sentiment pair (0.05, 0) has a strictly larger
positive score, yet the lexical stage returns 0 (neutral), not 1 — the
0.1 magnitude threshold does change the stored digit. -/
theorem C2_counterexample :
    (0 : ℚ) < mkRat 1 20
    ∧ get_valence_sentiwordnet (some (mkRat 1 20, 0)) = 0
    ∧ get_valence_sentiwordnet (some (mkRat 1 20, 0)) ≠ 1 := by
  refine ⟨by decide, by decide, by decide⟩

/-- C2 (amended): for every sentiment pair in [0,1]×[0,1] the lexical
stage returns the digit decided by the strictly larger score only when
that winning score also reaches the 0.1 threshold; ties, and winners
below 0.1, yield 0.  The 0.25 threshold never affects the digit. -/
theorem C2_lexical_valence (p n : ℚ) (hp0 : 0 ≤ p) (hp1 : p ≤ 1)
    (hn0 : 0 ≤ n) (hn1 : n ≤ 1) :
    get_valence_sentiwordnet (some (p, n))
      = if n < p then (if 1/10 ≤ p then 1 else 0)
        else if p < n then (if 1/10 ≤ n then 2 else 0)
        else 0 := by
  rw [gvs_eq_some, mkRat_quarter, mkRat_tenth]
  have h41 : ((25 : ℚ)/100) = 1/4 := by norm_num
  split_ifs <;> first | rfl | linarith

/-- Witness for C2: scores (0.5, 0) yield digit 1. -/
theorem C2_witness :
    (0 : ℚ) ≤ mkRat 1 2 ∧ (mkRat 1 2 : ℚ) ≤ 1
    ∧ get_valence_sentiwordnet (some (mkRat 1 2, 0)) = 1 := by
  have hb : (mkRat 1 2 : ℚ) = 1/2 := by
    norm_num [Rat.mkRat_eq_divInt, Rat.divInt_eq_div]
  have h0 : (0 : ℚ) ≤ mkRat 1 2 := by rw [hb]; norm_num
  have h1 : (mkRat 1 2 : ℚ) ≤ 1 := by rw [hb]; norm_num
  refine ⟨h0, h1, ?_⟩
  rw [C2_lexical_valence (mkRat 1 2) 0 h0 h1 (le_refl 0) (by norm_num)]
  rw [hb]
  norm_num

/-- C9: abstractness classification, characterized over the union of
ancestors across all hypernym paths: 0 iff the union meets CONCRETE but
not ABSTRACT, 2 iff it meets ABSTRACT but not CONCRETE, and 1 in every
other case — both, neither, or a failed hypernym traversal. -/
theorem C9_abstractness :
    (∀ (s : Synset) (paths : List (List String)), s.paths = .ok paths →
      ((get_abstractness s = 0 ↔
          (∃ x ∈ paths.flatten, x ∈ CONCRETE_HYPERNYMS)
            ∧ ¬ ∃ x ∈ paths.flatten, x ∈ ABSTRACT_HYPERNYMS)
        ∧ (get_abstractness s = 2 ↔
          (∃ x ∈ paths.flatten, x ∈ ABSTRACT_HYPERNYMS)
            ∧ ¬ ∃ x ∈ paths.flatten, x ∈ CONCRETE_HYPERNYMS)
        ∧ (get_abstractness s = 1 ↔
          (((∃ x ∈ paths.flatten, x ∈ ABSTRACT_HYPERNYMS)
              ∧ ∃ x ∈ paths.flatten, x ∈ CONCRETE_HYPERNYMS)
            ∨ ((¬ ∃ x ∈ paths.flatten, x ∈ ABSTRACT_HYPERNYMS)
              ∧ ¬ ∃ x ∈ paths.flatten, x ∈ CONCRETE_HYPERNYMS)))))
    ∧ (∀ (s : Synset) (e : String), s.paths = .error e →
        get_abstractness s = 1) := by
  constructor
  · intro s paths hok
    have hA : (paths.flatten.any (fun n => ABSTRACT_HYPERNYMS.contains n) = true)
        ↔ ∃ x ∈ paths.flatten, x ∈ ABSTRACT_HYPERNYMS := by
      rw [List.any_eq_true]
      constructor
      · rintro ⟨x, hx, hc⟩
        exact ⟨x, hx, by simpa using hc⟩
      · rintro ⟨x, hx, hc⟩
        exact ⟨x, hx, by simpa using hc⟩
    have hB : (paths.flatten.any (fun n => CONCRETE_HYPERNYMS.contains n) = true)
        ↔ ∃ x ∈ paths.flatten, x ∈ CONCRETE_HYPERNYMS := by
      rw [List.any_eq_true]
      constructor
      · rintro ⟨x, hx, hc⟩
        exact ⟨x, hx, by simpa using hc⟩
      · rintro ⟨x, hx, hc⟩
        exact ⟨x, hx, by simpa using hc⟩
    rw [abstractness_eq_ok s paths hok]
    cases ha : paths.flatten.any (fun n => ABSTRACT_HYPERNYMS.contains n) <;>
      cases hb : paths.flatten.any (fun n => CONCRETE_HYPERNYMS.contains n)
    · -- neither set met: digit 1
      have hnabs : ¬ ∃ x ∈ paths.flatten, x ∈ ABSTRACT_HYPERNYMS :=
        fun he => absurd (hA.mpr he) (by rw [ha]; decide)
      have hncon : ¬ ∃ x ∈ paths.flatten, x ∈ CONCRETE_HYPERNYMS :=
        fun he => absurd (hB.mpr he) (by rw [hb]; decide)
      exact ⟨⟨fun h => absurd h (by decide), fun hc => absurd hc.1 hncon⟩,
             ⟨fun h => absurd h (by decide), fun hc => absurd hc.1 hnabs⟩,
             ⟨fun _ => Or.inr ⟨hnabs, hncon⟩, fun _ => by decide⟩⟩
    · -- concrete only: digit 0
      have hnabs : ¬ ∃ x ∈ paths.flatten, x ∈ ABSTRACT_HYPERNYMS :=
        fun he => absurd (hA.mpr he) (by rw [ha]; decide)
      have hcon : ∃ x ∈ paths.flatten, x ∈ CONCRETE_HYPERNYMS := hB.mp hb
      refine ⟨⟨fun _ => ⟨hcon, hnabs⟩, fun _ => by decide⟩,
             ⟨fun h => absurd h (by decide), fun hc => absurd hc.1 hnabs⟩,
             ⟨fun h => absurd h (by decide), ?_⟩⟩
      rintro (⟨habs2, _⟩ | ⟨_, hncon2⟩)
      · exact absurd habs2 hnabs
      · exact absurd hcon hncon2
    · -- abstract only: digit 2
      have habs : ∃ x ∈ paths.flatten, x ∈ ABSTRACT_HYPERNYMS := hA.mp ha
      have hncon : ¬ ∃ x ∈ paths.flatten, x ∈ CONCRETE_HYPERNYMS :=
        fun he => absurd (hB.mpr he) (by rw [hb]; decide)
      refine ⟨⟨fun h => absurd h (by decide), fun hc => absurd hc.1 hncon⟩,
             ⟨fun _ => ⟨habs, hncon⟩, fun _ => by decide⟩,
             ⟨fun h => absurd h (by decide), ?_⟩⟩
      rintro (⟨_, hcon2⟩ | ⟨hnabs2, _⟩)
      · exact absurd hcon2 hncon
      · exact absurd habs hnabs2
    · -- both sets met: digit 1
      have habs : ∃ x ∈ paths.flatten, x ∈ ABSTRACT_HYPERNYMS := hA.mp ha
      have hcon : ∃ x ∈ paths.flatten, x ∈ CONCRETE_HYPERNYMS := hB.mp hb
      exact ⟨⟨fun h => absurd h (by decide), fun hc => absurd habs hc.2⟩,
             ⟨fun h => absurd h (by decide), fun hc => absurd hcon hc.2⟩,
             ⟨fun _ => Or.inl ⟨habs, hcon⟩, fun _ => by decide⟩⟩
  · intro s e herr
    exact abstractness_eq_error s e herr

/-- Witness for C9: a path through `person.n.01` (concrete, not
abstract) classifies as 0, and a failed traversal as 1. -/
theorem C9_witness :
    get_abstractness ⟨"n", .ok [["person.n.01"]], none, []⟩ = 0
    ∧ get_abstractness ⟨"n", .error "boom", none, []⟩ = 1 :=
  ⟨((C9_abstractness.1 ⟨"n", .ok [["person.n.01"]], none, []⟩
      [["person.n.01"]] rfl).1).mpr (by decide),
   C9_abstractness.2 ⟨"n", .error "boom", none, []⟩ "boom" rfl⟩

theorem findInPath_none (l : List String)
    (h : ∀ x ∈ l, tblLookup SUPERCLASS_ROOTS x = none) :
    findInPath l = none := by
  induction l with
  | nil => rfl
  | cons n ns ih =>
    simp only [findInPath, h n (by simp)]
    exact ih (fun x hx => h x (by simp [hx]))

theorem findInPaths_none (ls : List (List String))
    (h : ∀ p ∈ ls, ∀ x ∈ p, tblLookup SUPERCLASS_ROOTS x = none) :
    findInPaths ls = none := by
  induction ls with
  | nil => rfl
  | cons p ps ih =>
    simp only [findInPaths]
    rw [findInPath_none p.reverse
      (fun x hx => h p (by simp) x (List.mem_reverse.mp hx))]
    exact ih (fun q hq x hx => h q (by simp [hq]) x hx)

/-- C7: per-concept lookup failures degrade to the documented fallbacks
and never abort: a raised hypernym traversal, an empty path list, or a
match-free path list all resolve to the POS-keyed fallback superclass
(0999 nouns, 2999 verbs, 3999 adjectives incl. satellites, 4999
otherwise); a failed sentiment lookup yields valence 0; a failed
traversal in the abstractness classifier yields 1 (mixed). -/
theorem C7_fallbacks :
    (∀ (s : Synset) (e : String), s.paths = .error e →
        get_superclass_code s = getFallbackSuperclass s.pos)
    ∧ (∀ s : Synset, s.paths = .ok [] →
        get_superclass_code s = getFallbackSuperclass s.pos)
    ∧ (∀ (s : Synset) (paths : List (List String)), s.paths = .ok paths →
        (∀ p ∈ paths, ∀ x ∈ p, tblLookup SUPERCLASS_ROOTS x = none) →
        get_superclass_code s = getFallbackSuperclass s.pos)
    ∧ (getFallbackSuperclass "n" = "0999" ∧ getFallbackSuperclass "v" = "2999"
        ∧ getFallbackSuperclass "a" = "3999" ∧ getFallbackSuperclass "s" = "3999"
        ∧ ∀ q, q ∉ (["n", "v", "a", "s"] : List String) →
            getFallbackSuperclass q = "4999")
    ∧ get_valence_sentiwordnet none = 0
    ∧ (∀ (s : Synset) (e : String), s.paths = .error e →
        get_abstractness s = 1) := by
  refine ⟨?_, ?_, ?_, ⟨by decide, by decide, by decide, by decide, ?_⟩,
    gvs_eq_none, ?_⟩
  · intro s e herr
    exact gsc_eq_error s e herr
  · intro s hnil
    exact gsc_eq_nil s hnil
  · intro s paths hok hnone
    cases paths with
    | nil => exact gsc_eq_nil s hok
    | cons p ps =>
      rw [gsc_eq_cons s p ps hok, findInPaths_none (p :: ps) hnone]
  · intro q hq
    unfold getFallbackSuperclass
    rw [if_neg (fun h => hq (by simp [h])),
        if_neg (fun h => hq (by simp [h])),
        if_neg (fun h => by rcases h with h | h <;> exact hq (by simp [h]))]
  · intro s e herr
    exact abstractness_eq_error s e herr

set_option maxRecDepth 200000 in
/-- Witness for C7 at concrete synsets. -/
theorem C7_witness :
    get_superclass_code ⟨"q", .error "boom", none, []⟩ = "4999"
    ∧ get_superclass_code ⟨"n", .ok [], none, []⟩ = "0999"
    ∧ get_superclass_code ⟨"v", .ok [["zzz"]], none, []⟩ = "2999"
    ∧ get_abstractness ⟨"n", .error "x", none, []⟩ = 1 :=
  ⟨(C7_fallbacks.1 ⟨"q", .error "boom", none, []⟩ "boom" rfl).trans (by decide),
   (C7_fallbacks.2.1 ⟨"n", .ok [], none, []⟩ rfl).trans (by decide),
   (C7_fallbacks.2.2.1 ⟨"v", .ok [["zzz"]], none, []⟩ [["zzz"]] rfl
      (by decide)).trans (by decide),
   C7_fallbacks.2.2.2.2.2 ⟨"n", .error "x", none, []⟩ "x" rfl⟩

/-- C8: the stored priority follows the spec formula
`frequency + (10000 if the superclass is a specific match else 0) +
max(0, 10 - ordinal)` — the code's `endswith("999")` test coincides with
being a POS fallback — and a 50-frequency sense of a word always
outranks a 5-frequency sense when both superclasses are specific,
whatever the two ordinal positions. -/
theorem C8_priority :
    (∀ (s : Synset) (count idx : Nat),
        buildPriority (get_superclass_code s) count idx
          = spec_priority count
              (!(fallbackCodes.contains (get_superclass_code s))) idx)
    ∧ (∀ syns : List Synset, ∀ r ∈ genEntries syns,
        ∃ s, s ∈ syns ∧ ∃ l, l ∈ s.lemmas ∧ ∃ i,
          r.priority = buildPriority (get_superclass_code s) l.count i)
    ∧ (∀ (s1 s2 : Synset) (i1 i2 : Nat),
        get_superclass_code s1 ∉ fallbackCodes →
        get_superclass_code s2 ∉ fallbackCodes →
        buildPriority (get_superclass_code s1) 50 i1
          > buildPriority (get_superclass_code s2) 5 i2) := by
  have hbonus : ∀ s : Synset,
      (if pyEndsWith (get_superclass_code s) "999" then (0 : Int) else 10000)
        = (if !(fallbackCodes.contains (get_superclass_code s))
           then (10000 : Int) else 0) := by
    intro s
    cases hf : fallbackCodes.contains (get_superclass_code s)
    · have hnm : get_superclass_code s ∉ fallbackCodes := by
        intro hm
        simp [List.contains, List.elem_iff] at hf
        exact hf hm
      have h999 : pyEndsWith (get_superclass_code s) "999" = false := by
        cases h9 : pyEndsWith (get_superclass_code s) "999"
        · rfl
        · exact absurd ((ends999_iff s).mp h9) hnm
      rw [h999]
      simp
    · have hm : get_superclass_code s ∈ fallbackCodes := by
        simpa [List.contains, List.elem_iff] using hf
      rw [(ends999_iff s).mpr hm]
      simp
  refine ⟨?_, ?_, ?_⟩
  · intro s count idx
    unfold buildPriority spec_priority
    rw [hbonus s]
  · intro syns r hr
    unfold genEntries genState at hr
    rcases (genState_mem syns ⟨fun _ => 0, [], []⟩ 0 (fun k => Nat.le_refl 0)).2
        r hr with hmem | ⟨s, hs, l, hl, i, n, _, he⟩
    · cases hmem
    · exact ⟨s, hs, l, hl, i, by rw [he]⟩
  · intro s1 s2 i1 i2 h1 h2
    have e1 : pyEndsWith (get_superclass_code s1) "999" = false := by
      cases h9 : pyEndsWith (get_superclass_code s1) "999"
      · rfl
      · exact absurd ((ends999_iff s1).mp h9) h1
    have e2 : pyEndsWith (get_superclass_code s2) "999" = false := by
      cases h9 : pyEndsWith (get_superclass_code s2) "999"
      · rfl
      · exact absurd ((ends999_iff s2).mp h9) h2
    unfold buildPriority
    rw [e1, e2]
    have hb1 : (0 : Int) ≤ max 0 (10 - (i1 : Int)) := le_max_left 0 _
    have hb2 : max 0 (10 - (i2 : Int)) ≤ 10 :=
      max_le (by omega) (by omega)
    simp only [if_neg (by decide : ¬ (false = true))]
    have hc1 : ((50 : Nat) : Int) = 50 := by norm_num
    have hc2 : ((5 : Nat) : Int) = 5 := by norm_num
    rw [hc1, hc2]
    linarith

set_option maxRecDepth 200000 in
/-- Witness for C8: `synExcited` resolves to the specific superclass
3000, so a 50-frequency sense outranks a 5-frequency one. -/
theorem C8_witness :
    get_superclass_code synExcited ∉ fallbackCodes
    ∧ buildPriority (get_superclass_code synExcited) 50 0
        > buildPriority (get_superclass_code synExcited) 5 3 :=
  ⟨by decide, C8_priority.2.2 synExcited synExcited 0 3 (by decide) (by decide)⟩

/-! ## Hierarchy-resolution order (C4) -/

theorem findInPath_isSome (l : List String) :
    (findInPath l).isSome
      = l.any (fun n => (tblLookup SUPERCLASS_ROOTS n).isSome) := by
  induction l with
  | nil => rfl
  | cons n ns ih =>
    simp only [findInPath, List.any_cons]
    cases hl : tblLookup SUPERCLASS_ROOTS n with
    | some c => simp [hl]
    | none => simp [hl, ih]

theorem findInPath_eq_find (l : List String) :
    findInPath l
      = match l.find? (fun n => (tblLookup SUPERCLASS_ROOTS n).isSome) with
        | some n => tblLookup SUPERCLASS_ROOTS n
        | none => none := by
  induction l with
  | nil => rfl
  | cons n ns ih =>
    cases hl : tblLookup SUPERCLASS_ROOTS n with
    | some c =>
      rw [List.find?_cons_of_pos _ (by simp [hl])]
      simp only [findInPath, hl]
    | none =>
      rw [List.find?_cons_of_neg _ (by simp [hl])]
      simp only [findInPath, hl]
      exact ih

theorem findInPaths_eq (ps : List (List String)) :
    findInPaths ps
      = match ps.find? (fun p =>
            p.any (fun n => (tblLookup SUPERCLASS_ROOTS n).isSome)) with
        | some p => findInPath p.reverse
        | none => none := by
  induction ps with
  | nil => rfl
  | cons p ps ih =>
    by_cases hp : p.any (fun n => (tblLookup SUPERCLASS_ROOTS n).isSome) = true
    · rw [List.find?_cons_of_pos
        (p := fun q => q.any fun n => (tblLookup SUPERCLASS_ROOTS n).isSome)
        ps hp]
      have hs : (findInPath p.reverse).isSome = true := by
        rw [findInPath_isSome, List.any_reverse]
        exact hp
      cases hf : findInPath p.reverse with
      | none => rw [hf] at hs; cases hs
      | some c => simp only [findInPaths, hf]
    · rw [List.find?_cons_of_neg
        (p := fun q => q.any fun n => (tblLookup SUPERCLASS_ROOTS n).isSome)
        ps hp]
      have hnone : findInPath p.reverse = none := by
        cases hf : findInPath p.reverse with
        | none => rfl
        | some c =>
          exfalso
          apply hp
          rw [← List.any_reverse, ← findInPath_isSome, hf]
          rfl
      simp only [findInPaths, hnone]
      exact ih

theorem specRF_eq_error (s : Synset) (e : String) (h : s.paths = .error e) :
    specResolveRootFirst s = getFallbackSuperclass s.pos := by
  unfold specResolveRootFirst
  rw [h]

theorem specRF_eq_ok (s : Synset) (paths : List (List String))
    (h : s.paths = .ok paths) :
    specResolveRootFirst s
      = match paths.find? (fun p =>
            p.any (fun n => (tblLookup SUPERCLASS_ROOTS n).isSome)) with
        | some p =>
          match p.reverse.find? (fun n =>
              (tblLookup SUPERCLASS_ROOTS n).isSome) with
          | some n =>
            (tblLookup SUPERCLASS_ROOTS n).getD (getFallbackSuperclass s.pos)
          | none => getFallbackSuperclass s.pos
        | none => getFallbackSuperclass s.pos := by
  unfold specResolveRootFirst
  rw [h]

set_option maxRecDepth 200000 in
/-- C4 counterexample: read with the claim's path ordering
(concept-first, root-last), `synC4`'s single path lists the specific
ancestor `object.n.01` (0004) before the root `entity.n.01` (0001).
Scanning from the most specific ancestor must return 0004, but the
resolver reverses the path and returns 0001 — under the claim's ordering
convention it scans from the most general side. -/
theorem C4_counterexample :
    get_superclass_code synC4 = "0001"
    ∧ specResolveConceptFirst synC4 = "0004"
    ∧ get_superclass_code synC4 ≠ specResolveConceptFirst synC4 := by
  refine ⟨by decide, by decide, by decide⟩

/-- C4 (amended): with each hypernym path ordered as the knowledge base
supplies it — most general first, concept last, the ordering the code's
reversal assumes — the resolver returns the SuperclassTable code of the
first matching ancestor found by iterating the paths in their given
order and scanning each path from its last element (most specific) to
its first (most general); the first path containing any table ancestor
wins, and matches in later paths are never consulted, even when
depth-wise closer. -/
theorem C4_resolution_order (s : Synset) :
    get_superclass_code s = specResolveRootFirst s := by
  cases hsp : s.paths with
  | error e => rw [gsc_eq_error s e hsp, specRF_eq_error s e hsp]
  | ok paths =>
    rw [specRF_eq_ok s paths hsp]
    cases paths with
    | nil =>
      rw [gsc_eq_nil s hsp]
      rfl
    | cons p ps =>
      rw [gsc_eq_cons s p ps hsp, findInPaths_eq (p :: ps)]
      cases hfq : (p :: ps).find? (fun q =>
          q.any (fun n => (tblLookup SUPERCLASS_ROOTS n).isSome)) with
      | none => rfl
      | some q =>
        show (match findInPath q.reverse with
              | some c => c
              | none => getFallbackSuperclass s.pos)
          = match q.reverse.find? (fun n =>
                (tblLookup SUPERCLASS_ROOTS n).isSome) with
            | some n =>
              (tblLookup SUPERCLASS_ROOTS n).getD (getFallbackSuperclass s.pos)
            | none => getFallbackSuperclass s.pos
        rw [findInPath_eq_find q.reverse]
        cases hfn : q.reverse.find? (fun n =>
            (tblLookup SUPERCLASS_ROOTS n).isSome) with
        | none => rfl
        | some n =>
          show (match tblLookup SUPERCLASS_ROOTS n with
                | some c => c
                | none => getFallbackSuperclass s.pos)
            = (tblLookup SUPERCLASS_ROOTS n).getD (getFallbackSuperclass s.pos)
          cases tblLookup SUPERCLASS_ROOTS n with
          | none => rfl
          | some c => rfl

/-! ## Antonym propagation (C3) -/

theorem zip_map_mem {A : Type} (t : List A) (f : A → A) :
    ∀ pr ∈ t.zip (t.map f), pr.2 = f pr.1 ∧ pr.1 ∈ t := by
  induction t with
  | nil => simp
  | cons a t ih =>
    intro pr hpr
    simp only [List.map_cons, List.zip_cons_cons] at hpr
    rcases List.mem_cons.mp hpr with rfl | hpr
    · exact ⟨rfl, by simp⟩
    · obtain ⟨h1, h2⟩ := ih pr hpr
      exact ⟨h1, by simp [h2]⟩

theorem collectFixes_pair (t : List Row) (w1 w2 : String)
    (c1 c2 : String) (r1 r2 : List String)
    (h1 : wordCodes t w1 = c1 :: r1) (h2 : wordCodes t w2 = c2 :: r2)
    (rest : List (String × String)) :
    collectFixes t ((w1, w2) :: rest)
      = (if (ovLookup VALENCE_OVERRIDES (pyLower w1)).isSome
            ∨ (ovLookup VALENCE_OVERRIDES (pyLower w2)).isSome then []
         else if pyIntD (part4 c1) = 0 ∧ pyIntD (part4 c2) ≠ 0 then
           fixesFor t w1 (opposite (pyIntD (part4 c2)))
         else if pyIntD (part4 c2) = 0 ∧ pyIntD (part4 c1) ≠ 0 then
           fixesFor t w2 (opposite (pyIntD (part4 c1)))
         else []) ++ collectFixes t rest := by
  simp only [collectFixes]
  rw [h1, h2]

/-- C3 (amended): antonym-propagation safety.  (i) For a pair (A,B) with
both words stored, neither override-protected, A's primary valence 0 and
B's primary valence 1, a propagation pass over exactly that pair (and its
mirror — the only pairs the pair set holds for one antonym link) rewrites
every valence-0 entry of A to digit 2.  With several differently-signed
antonyms of A in the pair set the outcome instead follows the first
applicable fix in enumeration order (see the counterexample).  (ii) If
both primary valences are non-zero the pass changes nothing.  (iii) For
every pair enumeration the pass never touches an entry whose valence
digit is non-zero, and any entry it changes goes from digit 0 to digit 1
or 2, keeping word and priority. -/
theorem C3_antonym_propagation :
    (∀ (t : List Row) (A B cA cB : String) (restA restB : List String),
      wordCodes t A = cA :: restA → wordCodes t B = cB :: restB →
      ovLookup VALENCE_OVERRIDES (pyLower A) = none →
      ovLookup VALENCE_OVERRIDES (pyLower B) = none →
      part4 cA = "0" → part4 cB = "1" →
      ∀ pr ∈ t.zip (antonymPass t [(A, B), (B, A)]),
        pr.1.word = A → part4 pr.1.code = "0" → part4 pr.2.code = "2")
    ∧ (∀ (t : List Row) (A B cA cB : String) (restA restB : List String),
      wordCodes t A = cA :: restA → wordCodes t B = cB :: restB →
      ovLookup VALENCE_OVERRIDES (pyLower A) = none →
      ovLookup VALENCE_OVERRIDES (pyLower B) = none →
      pyIntD (part4 cA) ≠ 0 → pyIntD (part4 cB) ≠ 0 →
      antonymPass t [(A, B), (B, A)] = t)
    ∧ (∀ (t : List Row) (ps : List (String × String)),
      ∀ pr ∈ t.zip (antonymPass t ps),
        (part4 pr.1.code ≠ "0" → pr.2 = pr.1)
        ∧ (pr.2 ≠ pr.1 → part4 pr.1.code = "0"
            ∧ part4 pr.2.code ∈ (["1", "2"] : List String)
            ∧ pr.2.word = pr.1.word ∧ pr.2.priority = pr.1.priority)) := by
  refine ⟨?_, ?_, ?_⟩
  · intro t A B cA cB restA restB hA hB hovA hovB hzA hzB pr hpr hword hzero
    have hfix : collectFixes t [(A, B), (B, A)]
        = fixesFor t A 2 ++ fixesFor t A 2 := by
      rw [collectFixes_pair t A B cA cB restA restB hA hB,
          collectFixes_pair t B A cB cA restB restA hB hA]
      rw [hzA, hzB, pyIntD_digit0, pyIntD_digit1, hovA, hovB]
      simp [show opposite 1 = 2 from rfl,
        show collectFixes t ([] : List (String × String)) = [] from rfl]
    unfold antonymPass at hpr
    rw [applyFixes_eq_map] at hpr
    obtain ⟨hpr2, hpr1⟩ := zip_map_mem t _ pr hpr
    rw [hpr2, hfix]
    apply perRowFix_hits _ _ "2" (by decide)
    · intro fx hfx
      have hsh : fx.2.1 = A ∧ part4 fx.2.2 = "0"
          ∧ fx.1 = rewriteValence (pySplitDash fx.2.2) 2 := by
        rcases List.mem_append.mp hfx with h | h
        · exact fixesFor_shape t A 2 fx h
        · exact fixesFor_shape t A 2 fx h
      refine ⟨hsh.2.1, ?_⟩
      rw [hsh.2.2, part4_rewrite_of_zero _ 2 hsh.2.1, natStr_two]
    · refine ⟨(rewriteValence (pySplitDash pr.1.code) 2, A, pr.1.code), ?_,
        hword.symm, rfl⟩
      apply List.mem_append.mpr
      left
      apply fixesFor_covers t A 2 pr.1.code ?_ hzero
      rw [← hword]
      exact mem_wordCodes t pr.1 hpr1
  · intro t A B cA cB restA restB hA hB hovA hovB hnA hnB
    have hfix : collectFixes t [(A, B), (B, A)] = [] := by
      rw [collectFixes_pair t A B cA cB restA restB hA hB,
          collectFixes_pair t B A cB cA restB restA hB hA]
      rw [hovA, hovB]
      simp [collectFixes, hnA, hnB]
    unfold antonymPass
    rw [hfix]
    rfl
  · intro t ps pr hpr
    unfold antonymPass at hpr
    rw [applyFixes_eq_map] at hpr
    obtain ⟨hpr2, hpr1⟩ := zip_map_mem t _ pr hpr
    constructor
    · intro hnz
      rw [hpr2]
      exact perRowFix_keep _ _
        (fun fx hfx => (collectFixes_full_shape t ps fx hfx).1) hnz
    · intro hchanged
      rcases perRowFix_cases (collectFixes t ps) pr.1
          (collectFixes_full_shape t ps) with he | ⟨hz, d, hd, he⟩
      · rw [hpr2] at hchanged
        exact absurd he hchanged
      · rw [hpr2, he]
        refine ⟨hz, ?_, rfl, rfl⟩
        rw [part4_rewrite_of_zero _ d hz]
        rcases hd with rfl | rfl
        · simp [natStr_one]
        · simp [natStr_two]

set_option maxRecDepth 200000 in
set_option maxHeartbeats 1000000 in
/-- C3 counterexample: in `tableABC` the word `aaa` is neutral, `bbb`
positive and `ccc` negative, none override-protected; the enumeration
`pairsOrderTwo` of the pair set contains (aaa, bbb) — so the claim
demands digit 2 for `aaa` — but the (aaa, ccc) fix is enumerated first
and `aaa` ends with digit 1. -/
theorem C3_counterexample :
    ("aaa", "bbb") ∈ pairsOrderTwo
    ∧ ovLookup VALENCE_OVERRIDES "aaa" = none
    ∧ ovLookup VALENCE_OVERRIDES "bbb" = none
    ∧ wordCodes tableABC "aaa" = ["0999-00001-1-1-0"]
    ∧ wordCodes tableABC "bbb" = ["0999-00002-1-1-1"]
    ∧ (antonymPass tableABC pairsOrderTwo).map (fun r => (r.word, part4 r.code))
        = [("aaa", "1"), ("bbb", "1"), ("ccc", "2")] := by
  refine ⟨by decide, by decide, by decide, by decide, by decide, by decide⟩

set_option maxRecDepth 200000 in
set_option maxHeartbeats 1000000 in
/-- Witness for C3 on `tableABC` with the single pair (aaa, bbb). -/
theorem C3_witness :
    (antonymPass tableABC [("aaa", "bbb"), ("bbb", "aaa")]).map
        (fun r => (r.word, part4 r.code))
      = [("aaa", "2"), ("bbb", "1"), ("ccc", "2")]
    ∧ ∀ pr ∈ tableABC.zip
        (antonymPass tableABC [("aaa", "bbb"), ("bbb", "aaa")]),
        pr.1.word = "aaa" → part4 pr.1.code = "0" → part4 pr.2.code = "2" :=
  ⟨by decide,
   C3_antonym_propagation.1 tableABC "aaa" "bbb" "0999-00001-1-1-0"
     "0999-00002-1-1-1" [] [] (by decide) (by decide) (by decide) (by decide)
     (by decide) (by decide)⟩

/-! ## Validator determinism check (C10) -/

theorem tblLookup_mem_self (tbl : List (String × String)) (k v : String)
    (h : tblLookup tbl k = some v) : (k, v) ∈ tbl := by
  induction tbl with
  | nil => simp [tblLookup] at h
  | cons p rest ih =>
    obtain ⟨a, b⟩ := p
    by_cases hk : a = k
    · simp [tblLookup, hk] at h
      subst hk
      simp [h]
    · simp only [tblLookup, if_neg hk] at h
      simp [ih h]

theorem insSorted_perm (w : String) (l : List String) :
    (insSorted w l).Perm (w :: l) := by
  induction l with
  | nil => simp [insSorted]
  | cons x xs ih =>
    unfold insSorted
    split_ifs
    · exact List.Perm.refl _
    · exact (ih.cons x).trans (List.Perm.swap w x xs)

theorem sortStr_perm (l : List String) : (sortStr l).Perm l := by
  induction l with
  | nil => simp [sortStr]
  | cons x xs ih =>
    unfold sortStr
    exact (insSorted_perm x (sortStr xs)).trans (ih.cons x)

theorem detScan_no_issues (rows : List (String × String)) :
    ∀ (dict : List (String × String)) (issues : List String),
    (rows.map Prod.fst).Nodup →
    (∀ p ∈ dict, p.1 ∉ rows.map Prod.fst) →
    detScan rows dict issues = issues := by
  induction rows with
  | nil => intro dict issues _ _; rfl
  | cons row rest ih =>
    obtain ⟨w, cs⟩ := row
    intro dict issues hnd hdict
    have hlk : tblLookup dict w = none := by
      cases h : tblLookup dict w with
      | none => rfl
      | some prev =>
        exact absurd (by simp : w ∈ ((w, cs) :: rest).map Prod.fst)
          (hdict (w, prev) (tblLookup_mem_self _ _ _ h))
    simp only [detScan, hlk]
    apply ih
    · exact (List.nodup_cons.mp (by simpa using hnd)).2
    · intro p hp
      rcases List.mem_append.mp hp with hp | hp
      · intro hmem
        exact hdict p hp (by simp [hmem])
      · rw [List.mem_singleton.mp hp]
        exact (List.nodup_cons.mp (by simpa using hnd)).1
  
/-- C10: the validator's determinism check is vacuous — its query groups
rows by word, so each word occurs at most once in the scanned result, the
duplicate branch is unreachable, and the check returns `(True, [])` for
every possible database contents. -/
theorem C10_determinism_check_vacuous (t : List Row) :
    check_determinism t = (true, []) := by
  have hmapfst : ∀ l : List String,
      (l.map (fun w => (w, String.intercalate "|" (wordCodes t w)))).map
        Prod.fst = l := by
    intro l
    induction l with
    | nil => rfl
    | cons x xs ih => simp [ih]
  have hfst : (detGroups t).map Prod.fst
      = sortStr ((t.map (fun r => r.word)).dedup) := by
    unfold detGroups
    rw [hmapfst]
  have hnd : ((detGroups t).map Prod.fst).Nodup := by
    rw [hfst]
    exact ((sortStr_perm _).nodup_iff).mpr
      (List.nodup_dedup (t.map (fun r => r.word)))
  have hscan := detScan_no_issues (detGroups t) [] [] hnd (by simp)
  show (if detScan (detGroups t) [] [] = ([] : List String)
        then ((true, []) : Bool × List String)
        else (false, detScan (detGroups t) [] [])) = (true, [])
  rw [hscan]
  rfl

end Oyemi
